import Mathlib

/-!
# check_varnish: threshold evaluation, parameter resolution and reporting

A shallow embedding of `src/check_varnish.c` (the Nagios plugin for Varnish).

Conventions of the embedding.

* C `int` and `intmax_t` values are mathematical integers (`Int`); the unsigned
  64-bit counters of `struct varnish_stats` are naturals, and every place where
  the C arithmetic wraps is written with an explicit `% 2 ^ 64`.
* A process run is summarised by its `Outcome`: everything written to standard
  output, everything written to standard error, and the argument of `exit`.
  Every function of the program that ends the process returns its `Outcome`.
* `double` values are the rationals they denote; each floating-point operation,
  conversions from integers included, is the exact operation followed by
  `roundBinary64`, the IEEE 754 binary64 round-to-nearest, ties-to-even
  rounding (every operation is evaluated in `double` precision, as with SSE2
  arithmetic).  Every `double` of the program is either zero or lies between
  `2 ^ (-64)` and `2 ^ 72`, far inside the normal range, so neither subnormals
  nor infinities are modelled.
* The conversion of a `double` outside the range of `intmax_t` is undefined
  behaviour in C; it is `none` here, which is why `check_stats` and `main`
  return `Option Outcome`.
* `getopt`, `atoi` and `VSL_OpenStats` are library functions.  The run of
  `getopt` over `argv` is given by the list of options it returns, `atoi` is
  modelled for in-range decimal text, and `VSL_OpenStats` is a parameter.
* `stat_field.h` belongs to the Varnish library: the table of its
  `MAC_STAT(n, t, f, d)` entries is a parameter, the list of pairs `(n, d)`.
-/

namespace CheckVarnish

/-! ## Threshold evaluator -/

/-- The function `check_threshold` (lines 46-62): the status code for `value`
against the thresholds `warn` and `crit`; `less` is the C truth value of the
"less is bad" direction. -/
def check_threshold (value warn crit less : Int) : Int :=
  if less = 0 then
    if value < warn then 0
    else if value < crit then 1
    else 2
  else
    if value > warn then 0
    else if value > crit then 1
    else 2

/-! ## Reporter -/

/-- What a terminated run of the program leaves behind. -/
structure Outcome where
  /-- Text written to standard output. -/
  stdout : String
  /-- Text written to standard error. -/
  stderr : String
  /-- The argument passed to `exit`. -/
  code : Int
  deriving DecidableEq, Repr

/-- The conversion `%ju` applied to an `intmax_t` argument: the 64-bit pattern of
the argument read as an unsigned number, in decimal. -/
def fmt_ju (value : Int) : String :=
  toString (value % 2 ^ 64).toNat

/-- The function `message_and_exit` (lines 68-83). -/
def message_and_exit (level value : Int) (info : String) : Outcome :=
  let word : String :=
    if level = 0 then "OK: "
    else if level = 1 then "Warning: "
    else if level = 2 then "Critical: "
    else "Uknown: "
  { stdout := word ++ (fmt_ju value ++ " " ++ info ++ "\n"),
    stderr := "",
    code := level }

/-! ## Floating point -/

/-- IEEE 754 binary64 rounding of a rational, to nearest with ties to even, for
magnitudes in the normal range: the significand has 53 bits, so a number with
`2 ^ e ≤ |q| < 2 ^ (e + 1)` is rounded to a multiple of `2 ^ (e - 52)`. -/
def roundBinary64 (q : ℚ) : ℚ :=
  if q = 0 then 0 else
    let e : ℤ := Int.log 2 |q|
    let ulp : ℚ := (2 : ℚ) ^ (e - 52)
    let m : ℚ := q / ulp
    let f : ℤ := ⌊m⌋
    let r : ℚ := m - f
    let n : ℤ :=
      if r < 1 / 2 then f
      else if 1 / 2 < r then f + 1
      else if f % 2 = 0 then f
      else f + 1
    n * ulp

/-- Conversion of a `uint64_t` to `double`. -/
def double_of_uint64 (u : Nat) : ℚ := roundBinary64 u

/-- Conversion of an `intmax_t` to `double`. -/
def double_of_intmax (i : Int) : ℚ := roundBinary64 i

/-- Multiplication of two `double`s. -/
def double_mul (x y : ℚ) : ℚ := roundBinary64 (x * y)

/-- Division of two `double`s (the divisor is never zero in this program). -/
def double_div (x y : ℚ) : ℚ := roundBinary64 (x / y)

/-- Conversion of a `double` to `intmax_t`: the fractional part is discarded;
the behaviour is undefined when the result does not fit. -/
def intmax_of_double (x : ℚ) : Option Int :=
  let t : Int := if 0 ≤ x then ⌊x⌋ else ⌈x⌉
  if -(2 ^ 63) ≤ t ∧ t < 2 ^ 63 then some t else none

/-- Conversion of a `uint64_t` to `intmax_t`: values from `2 ^ 63` on wrap to
negative numbers. -/
def intmax_of_uint64 (u : Nat) : Int :=
  if u < 2 ^ 63 then (u : Int) else (u : Int) - 2 ^ 64

/-! ## Parameter resolver -/

/-- The counters of `struct varnish_stats`: the value of the field named `n`.
Every field is a `uint64_t`, so a snapshot of a real run has all values below
`2 ^ 64`. -/
abbrev varnish_stats := String → Nat

/-- The chain of `else if (strcmp(param, #n) == 0)` branches that the
`MAC_STAT` entries of `stat_field.h` expand to (lines 111-120), ending in the
`else` branch and the `exit(3)` behind it. -/
def MAC_STAT_chain (VSL_stats : varnish_stats) (param : String) (w c less : Int) :
    List (String × String) → Outcome
  | [] =>
    { stdout := "Unknown parameter '" ++ param ++ "'\n", stderr := "", code := 3 }
  | (n, d) :: rest =>
    if param = n then
      let val : Int := intmax_of_uint64 (VSL_stats n)
      let level : Int := check_threshold val w c less
      message_and_exit level val d
    else MAC_STAT_chain VSL_stats param w c less rest

/-- The percentage computed in both derived branches of `check_stats`:
`total = part + rest` in `uint64_t` arithmetic, stored in an `intmax_t`, and
`ratio = 100.0 * part / total` when `total > 0`, else `0`. -/
def percentage (part rest : Nat) : ℚ :=
  let total : Int := intmax_of_uint64 ((part + rest) % 2 ^ 64)
  if total > 0 then
    double_div (double_mul 100 (double_of_uint64 part)) (double_of_intmax total)
  else 0

/-- The function `check_stats` (lines 88-122). -/
def check_stats (stat_field : List (String × String)) (VSL_stats : varnish_stats)
    (param : String) (w c less : Int) : Option Outcome :=
  if param = "ratio" then
    let ratio : ℚ := percentage (VSL_stats "cache_hit") (VSL_stats "cache_miss")
    (intmax_of_double ratio).map fun v =>
      message_and_exit (check_threshold v w c less) v "Cache hit ratio"
  else if param = "usage" then
    let ratio : ℚ := percentage (VSL_stats "sm_balloc") (VSL_stats "sm_bfree")
    (intmax_of_double ratio).map fun v =>
      message_and_exit (check_threshold v w c less) v "Cache file usage"
  else some (MAC_STAT_chain VSL_stats param w c less stat_field)

/-! ## Command line -/

/-- One result of `getopt(argc, argv, "c:hln:p:w:")`: an option letter with its
argument, or `other` for anything `getopt` reports as an error. -/
inductive Opt where
  | c (optarg : String)
  | h
  | l
  | n (optarg : String)
  | p (optarg : String)
  | w (optarg : String)
  | other
  deriving DecidableEq, Repr

/-- The local variables of `main` that the option loop assigns. -/
structure Args where
  critical : Int
  warning : Int
  n_arg : Option String
  param : Option String
  less : Int
  deriving DecidableEq, Repr

/-- The white-space characters skipped by `atoi`. -/
def isspace (ch : Char) : Bool :=
  ch = ' ' || ch = '\t' || ch = '\n' || ch = '\x0b' || ch = '\x0c' || ch = '\r'

/-- The value of the leading decimal digits of a text, continuing from `acc`. -/
def atoi_digits : List Char → Int → Int
  | [], acc => acc
  | ch :: rest, acc =>
    if ch.isDigit then atoi_digits rest (10 * acc + ((ch.toNat : Int) - 48)) else acc

/-- The library function `atoi`: optional white space, an optional sign, then
decimal digits; text without digits gives `0`. -/
def atoi (s : String) : Int :=
  match s.toList.dropWhile isspace with
  | '-' :: rest => -atoi_digits rest 0
  | '+' :: rest => atoi_digits rest 0
  | rest => atoi_digits rest 0

/-- The first line of both the help and the usage text. -/
def usage_line : String :=
  "usage: check_varnish [-l] [-n varnish_name] [-p param_name [-c N] [-w N]]\n"

/-- The function `help` (lines 126-150). -/
def help : Outcome :=
  { stdout := "",
    stderr := usage_line ++
      "\n" ++
      "-l              Warn when the measured value is less, not more,\n" ++
      "                than the configured threshold.\n" ++
      "-n varnish_name Specify the Varnish instance name\n" ++
      "-p param_name   Specify the parameter to check (see below).\n" ++
      "                Default is 'ratio'.\n" ++
      "-c N            Set critical threshold to N\n" ++
      "-w N            Set warning threshold to N\n" ++
      "\n" ++
      "All items reported by varnishstat(1) are available - use the\n" ++
      "identifier listed in the left column by 'varnishstat -l'.  In\n" ++
      "addition, the following parameters are available:\n" ++
      "\n" ++
      "ratio   The cache hit ratio expressed as a percentage of hits to\n" ++
      "        hits + misses.  Default thresholds are 95 and 90.\n" ++
      "usage   Cache file usage as a percentage of the total cache space.\n",
    code := 0 }

/-- The function `usage` (lines 152-159). -/
def usage : Outcome :=
  { stdout := "", stderr := usage_line, code := 3 }

/-- The option loop of `main` (lines 172-195): `help` and `usage` end the
process as soon as they are reached. -/
def option_loop : List Opt → Args → Except Outcome Args
  | [], a => .ok a
  | Opt.c optarg :: rest, a => option_loop rest { a with critical := atoi optarg }
  | Opt.h :: _, _ => .error help
  | Opt.l :: rest, a => option_loop rest { a with less := 1 }
  | Opt.n optarg :: rest, a => option_loop rest { a with n_arg := some optarg }
  | Opt.p optarg :: rest, a => option_loop rest { a with param := some optarg }
  | Opt.w optarg :: rest, a => option_loop rest { a with warning := atoi optarg }
  | Opt.other :: _, _ => .error usage

/-- The initial values of the local variables of `main` (lines 166-169). -/
def initial_args : Args :=
  { critical := 0, warning := 0, n_arg := none, param := none, less := 0 }

/-- The defaulting step of `main` (lines 203-210). -/
def apply_defaults (a : Args) : Args :=
  match a.param with
  | none =>
    let a1 : Args := { a with param := some "ratio" }
    if a1.warning = 0 ∧ a1.critical = 0 then
      { a1 with warning := 95, critical := 90, less := 1 }
    else a1
  | some _ => a

/-- The function `main` (lines 162-218), run on the options that `getopt`
returns for its command line. -/
def main (VSL_OpenStats : Option String → Option varnish_stats)
    (stat_field : List (String × String)) (opts : List Opt) : Option Outcome :=
  match option_loop opts initial_args with
  | .error o => some o
  | .ok a0 =>
    match VSL_OpenStats a0.n_arg with
    | none => some { stdout := "", stderr := "", code := 1 }
    | some VSL_stats =>
      let a : Args := apply_defaults a0
      match a.param with
      | none => some usage
      | some param =>
        if a.critical = 0 ∧ a.warning = 0 then some usage
        else check_stats stat_field VSL_stats param a.warning a.critical a.less

/-! ## Sample data -/

/-- A snapshot with 99 cache hits, one cache miss and every other counter 0. -/
def sample_stats : varnish_stats := fun n =>
  if n = "cache_hit" then 99 else if n = "cache_miss" then 1 else 0

/-- A small excerpt of the counter table of `stat_field.h`. -/
def sample_stat_field : List (String × String) :=
  [("client_conn", "Client connections accepted"),
   ("client_req", "Client requests received"),
   ("cache_hit", "Cache hits"),
   ("cache_miss", "Cache misses")]

/-- A stats provider that can always be opened and shows `sample_stats`. -/
def sample_provider : Option String → Option varnish_stats := fun _ => some sample_stats

/-- A snapshot whose counter `client_conn` is `2 ^ 63`, every other counter 0. -/
def wrapped_stats : varnish_stats := fun n =>
  if n = "client_conn" then 2 ^ 63 else 0

/-- A snapshot with `2 ^ 53` cache hits and one cache miss. -/
def large_stats : varnish_stats := fun n =>
  if n = "cache_hit" then 2 ^ 53 else if n = "cache_miss" then 1 else 0

/-- A snapshot with 3151336721087743 cache hits and no cache miss. -/
def uneven_stats : varnish_stats := fun n =>
  if n = "cache_hit" then 3151336721087743 else 0

/-! ## The threshold evaluator: properties -/

/-- C1. In the "more is worse" direction (`less = 0`) and with `warn < crit`,
`check_threshold` returns 0 exactly when `value < warn`, 1 exactly when
`warn ≤ value < crit`, and 2 exactly when `value ≥ crit`. -/
theorem check_threshold_more_is_worse (value warn crit : Int) (h : warn < crit) :
    (check_threshold value warn crit 0 = 0 ↔ value < warn) ∧
    (check_threshold value warn crit 0 = 1 ↔ warn ≤ value ∧ value < crit) ∧
    (check_threshold value warn crit 0 = 2 ↔ crit ≤ value) := by
  unfold check_threshold
  refine ⟨?_, ?_, ?_⟩ <;> constructor <;> intro h1 <;> split_ifs at * <;> omega

/-- Witness of C1 at `value = 7`, `warn = 5`, `crit = 10`. -/
theorem check_threshold_more_is_worse_witness :
    ((5 : Int) < 10) ∧
    ((check_threshold 7 5 10 0 = 0 ↔ (7 : Int) < 5) ∧
     (check_threshold 7 5 10 0 = 1 ↔ (5 : Int) ≤ 7 ∧ (7 : Int) < 10) ∧
     (check_threshold 7 5 10 0 = 2 ↔ (10 : Int) ≤ 7)) :=
  ⟨by decide, check_threshold_more_is_worse 7 5 10 (by decide)⟩

/-- C2. In the "less is bad" direction (`less = 1`) and with `warn > crit`,
`check_threshold` returns 0 exactly when `value > warn`, 1 exactly when
`crit < value ≤ warn`, and 2 exactly when `value ≤ crit`. -/
theorem check_threshold_less_is_bad (value warn crit : Int) (h : warn > crit) :
    (check_threshold value warn crit 1 = 0 ↔ value > warn) ∧
    (check_threshold value warn crit 1 = 1 ↔ crit < value ∧ value ≤ warn) ∧
    (check_threshold value warn crit 1 = 2 ↔ value ≤ crit) := by
  unfold check_threshold
  refine ⟨?_, ?_, ?_⟩ <;> constructor <;> intro h1 <;> split_ifs at * <;> omega

/-- Witness of C2 at `value = 93`, `warn = 95`, `crit = 90`. -/
theorem check_threshold_less_is_bad_witness :
    ((95 : Int) > 90) ∧
    ((check_threshold 93 95 90 1 = 0 ↔ (93 : Int) > 95) ∧
     (check_threshold 93 95 90 1 = 1 ↔ (90 : Int) < 93 ∧ (93 : Int) ≤ 95) ∧
     (check_threshold 93 95 90 1 = 2 ↔ (93 : Int) ≤ 90)) :=
  ⟨by decide, check_threshold_less_is_bad 93 95 90 (by decide)⟩

/-- C3, refuted as stated: with `warn = 50` above `crit = 10`, the value 20 is
at least `crit` and yet `check_threshold 20 50 10 0` is 0, not 2; and in the
other direction, with `warn = 10` below `crit = 50`, the value 20 is at most
`crit` and `check_threshold 20 10 50 1` is 0, not 2. -/
theorem check_threshold_critical_clause_fails :
    ((10 : Int) ≤ 20 ∧ check_threshold 20 50 10 0 = 0 ∧ check_threshold 20 50 10 0 ≠ 2) ∧
    ((20 : Int) ≤ 50 ∧ check_threshold 20 10 50 1 = 0 ∧ check_threshold 20 10 50 1 ≠ 2) := by
  decide

/-- C3, amended. For all `value`, `warn` and `crit`, in any order:
`check_threshold value warn crit 0` is 2 exactly when `value` is at least both
`warn` and `crit`, and `check_threshold value warn crit 1` is 2 exactly when
`value` is at most both `warn` and `crit`. -/
theorem check_threshold_critical_iff (value warn crit : Int) :
    (check_threshold value warn crit 0 = 2 ↔ warn ≤ value ∧ crit ≤ value) ∧
    (check_threshold value warn crit 1 = 2 ↔ value ≤ warn ∧ value ≤ crit) := by
  unfold check_threshold
  refine ⟨?_, ?_⟩ <;> constructor <;> intro h1 <;> split_ifs at * <;> omega

/-- C4, refuted as stated: `check_threshold 50 50 10 0` is 2 (CRITICAL), not
1 (WARNING). -/
theorem check_threshold_at_warn_not_warning :
    check_threshold 50 50 10 0 = 2 ∧ check_threshold 50 50 10 0 ≠ 1 := by
  decide

/-- C4, amended. In the "more is worse" direction a value equal to the warning
threshold is not OK, and when `crit` lies below `warn` it is CRITICAL:
`check_threshold w w c 0 = 2` for all `c < w`. -/
theorem check_threshold_at_warn_critical (w c : Int) (h : c < w) :
    check_threshold w w c 0 ≠ 0 ∧ check_threshold w w c 0 = 2 := by
  unfold check_threshold
  refine ⟨?_, ?_⟩ <;> split_ifs <;> omega

/-- Witness of the amended C4 at `w = 50`, `c = 10`. -/
theorem check_threshold_at_warn_critical_witness :
    ((10 : Int) < 50) ∧ (check_threshold 50 50 10 0 ≠ 0 ∧ check_threshold 50 50 10 0 = 2) :=
  ⟨by decide, check_threshold_at_warn_critical 50 10 (by decide)⟩

/-! ## Floating point: properties of the rounding -/

theorem roundBinary64_zero : roundBinary64 0 = 0 := by
  simp [roundBinary64]

/-- The result of rounding is a multiple of the unit in the last place, by an
integer at distance at most one half from the scaled argument. -/
theorem roundBinary64_nearest (q : ℚ) (hq : q ≠ 0) :
    ∃ n : ℤ, roundBinary64 q = n * (2 : ℚ) ^ (Int.log 2 |q| - 52) ∧
      |(n : ℚ) - q / (2 : ℚ) ^ (Int.log 2 |q| - 52)| ≤ 1 / 2 := by
  have hf0 : (⌊q / (2 : ℚ) ^ (Int.log 2 |q| - 52)⌋ : ℚ) ≤ q / (2 : ℚ) ^ (Int.log 2 |q| - 52) :=
    Int.floor_le _
  have hf1 : q / (2 : ℚ) ^ (Int.log 2 |q| - 52) < ⌊q / (2 : ℚ) ^ (Int.log 2 |q| - 52)⌋ + 1 :=
    Int.lt_floor_add_one _
  unfold roundBinary64
  rw [if_neg hq]
  simp only []
  split_ifs with h1 h2 h3
  · refine ⟨_, rfl, ?_⟩
    rw [abs_le]; constructor <;> linarith
  · refine ⟨_, rfl, ?_⟩
    push_cast
    rw [abs_le]; constructor <;> linarith
  · refine ⟨_, rfl, ?_⟩
    rw [abs_le]; constructor <;> linarith
  · refine ⟨_, rfl, ?_⟩
    push_cast
    rw [abs_le]; constructor <;> linarith

/-- For a positive argument below `2 ^ 53` the unit in the last place is the
reciprocal of a natural power of two, and the result of rounding is a multiple
of it by an integer at distance at most one half from the scaled argument. -/
theorem roundBinary64_grid (q : ℚ) (hq : 0 < q) (hlt : q < 2 ^ 53) :
    ∃ (k : ℕ) (n : ℤ), (2 : ℚ) ^ Int.log 2 q * 2 ^ k = 2 ^ 52 ∧
      roundBinary64 q = n / 2 ^ k ∧ |(n : ℚ) - q * 2 ^ k| ≤ 1 / 2 := by
  obtain ⟨n, hn, hd⟩ := roundBinary64_nearest q hq.ne.symm
  rw [abs_of_pos hq] at hn hd
  have hlog : (2 : ℚ) ^ Int.log 2 q ≤ q := by
    have := Int.zpow_log_le_self (b := 2) (r := q) (by norm_num) hq
    simpa using this
  have he : Int.log 2 q < 53 := by
    have h2 : (2 : ℚ) ^ Int.log 2 q < (2 : ℚ) ^ (53 : ℤ) := by
      refine lt_of_le_of_lt hlog ?_
      exact_mod_cast hlt
    exact (zpow_lt_zpow_iff_right₀ (by norm_num : (1 : ℚ) < 2)).mp h2
  obtain ⟨k, hk⟩ : ∃ k : ℕ, (k : ℤ) = 52 - Int.log 2 q := ⟨(52 - Int.log 2 q).toNat, by omega⟩
  have hu : (2 : ℚ) ^ (Int.log 2 q - 52) = ((2 : ℚ) ^ k)⁻¹ := by
    rw [← zpow_natCast, hk, ← zpow_neg]
    congr 1
    ring
  refine ⟨k, n, ?_, ?_, ?_⟩
  · rw [← zpow_natCast, hk, ← zpow_add₀ (by norm_num : (2 : ℚ) ≠ 0)]
    norm_num
  · rw [hn, hu, div_eq_mul_inv]
  · rw [hu, div_inv_eq_mul] at hd
    exact hd

/-- A natural number below `2 ^ 53` is a `double`: rounding leaves it alone. -/
theorem roundBinary64_natCast (a : ℕ) (ha : a < 2 ^ 53) : roundBinary64 (a : ℚ) = a := by
  rcases Nat.eq_zero_or_pos a with h0 | hpos
  · subst h0
    simpa using roundBinary64_zero
  · have hq : (0 : ℚ) < a := by exact_mod_cast hpos
    have hlt : (a : ℚ) < 2 ^ 53 := by exact_mod_cast ha
    obtain ⟨k, n, -, hn, hd⟩ := roundBinary64_grid a hq hlt
    have hd2 : |n - (a * 2 ^ k : ℤ)| < 1 := by
      have : ((|n - (a * 2 ^ k : ℤ)| : ℤ) : ℚ) < 1 := by
        push_cast
        linarith
      exact_mod_cast this
    have hn2 : n = (a * 2 ^ k : ℤ) := by
      have := abs_lt.mp hd2
      omega
    rw [hn, hn2]
    push_cast
    field_simp

/-- Rounding a quotient of naturals `a / b` with `a < 2 ^ 53` never reaches the
next integer: when `d` is the integer quotient, the rounded quotient still lies
in `[d, d + 1)`. -/
theorem roundBinary64_div_bounds (a b d : ℕ) (hb : 0 < b) (ha : a < 2 ^ 53)
    (hd1 : b * d ≤ a) (hd2 : a + 1 ≤ b * (d + 1)) :
    (d : ℚ) ≤ roundBinary64 ((a : ℚ) / b) ∧ roundBinary64 ((a : ℚ) / b) < (d : ℚ) + 1 := by
  have hbq : (0 : ℚ) < b := by exact_mod_cast hb
  rcases Nat.eq_zero_or_pos a with h0 | hpos
  · subst h0
    have hd0 : d = 0 := by
      rcases Nat.eq_zero_or_pos d with h | h
      · exact h
      · have : b * 1 ≤ b * d := Nat.mul_le_mul_left b h
        omega
    subst hd0
    simp [roundBinary64_zero]
  · have haq : (0 : ℚ) < a := by exact_mod_cast hpos
    have hq : (0 : ℚ) < (a : ℚ) / b := div_pos haq hbq
    have hqa : (a : ℚ) / b ≤ a := div_le_self haq.le (by exact_mod_cast hb)
    have hlt : (a : ℚ) / b < 2 ^ 53 := lt_of_le_of_lt hqa (by exact_mod_cast ha)
    obtain ⟨k, n, hk, hn, hd⟩ := roundBinary64_grid _ hq hlt
    have hlog : (2 : ℚ) ^ Int.log 2 ((a : ℚ) / b) ≤ (a : ℚ) / b := by
      have := Int.zpow_log_le_self (b := 2) (r := (a : ℚ) / b) (by norm_num) hq
      simpa using this
    have hP : (0 : ℚ) < 2 ^ k := by positivity
    have hlow : (d : ℚ) ≤ (a : ℚ) / b := by
      rw [le_div_iff₀ hbq]
      have : ((b * d : ℕ) : ℚ) ≤ a := by exact_mod_cast hd1
      push_cast at this
      linarith
    have hupp : (a : ℚ) / b + 1 / b ≤ (d : ℚ) + 1 := by
      rw [← add_div, div_le_iff₀ hbq]
      have : ((a + 1 : ℕ) : ℚ) ≤ ((b * (d + 1) : ℕ) : ℚ) := by exact_mod_cast hd2
      push_cast at this
      linarith
    -- the divisor is small against the grid
    have hsmall : (b : ℚ) < 2 * 2 ^ k := by
      have h1 : (b : ℚ) * 2 ^ Int.log 2 ((a : ℚ) / b) ≤ a := by
        calc (b : ℚ) * 2 ^ Int.log 2 ((a : ℚ) / b) ≤ b * ((a : ℚ) / b) :=
              mul_le_mul_of_nonneg_left hlog hbq.le
          _ = a := by field_simp
      have h2 : (a : ℚ) < 2 ^ 53 := by exact_mod_cast ha
      have h3 : (b : ℚ) * (2 ^ Int.log 2 ((a : ℚ) / b) * 2 ^ k) < 2 ^ 53 * 2 ^ k := by
        calc (b : ℚ) * (2 ^ Int.log 2 ((a : ℚ) / b) * 2 ^ k)
              = ((b : ℚ) * 2 ^ Int.log 2 ((a : ℚ) / b)) * 2 ^ k := by ring
          _ < 2 ^ 53 * 2 ^ k := by
              apply mul_lt_mul_of_pos_right (lt_of_le_of_lt h1 h2) hP
      rw [hk] at h3
      norm_num at h3 ⊢
      linarith
    have hgap : (1 : ℚ) / 2 < 2 ^ k / b := by
      rw [lt_div_iff₀ hbq]
      linarith
    have habs := abs_le.mp hd
    -- lower and upper bounds on the integer numerator
    have hnlow : (d : ℤ) * 2 ^ k ≤ n := by
      have h1 : (((d : ℤ) * 2 ^ k - 1 : ℤ) : ℚ) < (n : ℚ) := by
        have : (d : ℚ) * 2 ^ k ≤ (a : ℚ) / b * 2 ^ k :=
          mul_le_mul_of_nonneg_right hlow hP.le
        push_cast
        linarith [habs.1]
      have h2 : (d : ℤ) * 2 ^ k - 1 < n := by exact_mod_cast h1
      omega
    have hnupp : n + 1 ≤ ((d : ℤ) + 1) * 2 ^ k := by
      have h0 : (n : ℚ) < ((((d : ℤ) + 1) * 2 ^ k : ℤ) : ℚ) := by
        have h1 : ((a : ℚ) / b + 1 / b) * 2 ^ k ≤ ((d : ℚ) + 1) * 2 ^ k :=
          mul_le_mul_of_nonneg_right hupp hP.le
        have h2 : ((a : ℚ) / b + 1 / b) * 2 ^ k = (a : ℚ) / b * 2 ^ k + 2 ^ k / b := by
          ring
        push_cast
        linarith [habs.2]
      have h2 : n < ((d : ℤ) + 1) * 2 ^ k := by exact_mod_cast h0
      omega
    have hnlowq : (d : ℚ) * 2 ^ k ≤ n := by exact_mod_cast hnlow
    have hnuppq : (n : ℚ) + 1 ≤ ((d : ℚ) + 1) * 2 ^ k := by exact_mod_cast hnupp
    rw [hn]
    constructor
    · rw [le_div_iff₀ hP]
      exact hnlowq
    · rw [div_lt_iff₀ hP]
      linarith

/-- The quotient of two naturals, the dividend below `2 ^ 53`, rounded to a
`double` and then truncated, is the integer quotient. -/
theorem floor_roundBinary64_div (a b : ℕ) (hb : 0 < b) (ha : a < 2 ^ 53) :
    0 ≤ roundBinary64 ((a : ℚ) / b) ∧ ⌊roundBinary64 ((a : ℚ) / b)⌋ = ((a / b : ℕ) : ℤ) := by
  have hd1 : b * (a / b) ≤ a := Nat.mul_div_le a b
  have hd2 : a + 1 ≤ b * (a / b + 1) := Nat.succ_le_of_lt (Nat.lt_mul_div_succ a hb)
  obtain ⟨h1, h2⟩ := roundBinary64_div_bounds a b (a / b) hb ha hd1 hd2
  constructor
  · exact le_trans (Nat.cast_nonneg _) h1
  · rw [Int.floor_eq_iff]
    exact ⟨by exact_mod_cast h1, by exact_mod_cast h2⟩

/-- Rounding moves a non-negative number by at most the fraction `2 ^ (-53)` of
itself. -/
theorem roundBinary64_near (q : ℚ) (hq : 0 ≤ q) : |roundBinary64 q - q| ≤ q / 2 ^ 53 := by
  rcases hq.eq_or_lt with h0 | hpos
  · subst h0
    simp [roundBinary64_zero]
  · obtain ⟨n, hn, hd⟩ := roundBinary64_nearest q hpos.ne.symm
    rw [abs_of_pos hpos] at hn hd
    have hlog : (2 : ℚ) ^ Int.log 2 q ≤ q := by
      have := Int.zpow_log_le_self (b := 2) (r := q) (by norm_num) hpos
      simpa using this
    have hU : (0 : ℚ) < 2 ^ (Int.log 2 q - 52) := by positivity
    have hUe : (2 : ℚ) ^ (Int.log 2 q - 52) = 2 ^ Int.log 2 q / 2 ^ 52 := by
      rw [zpow_sub₀ (by norm_num : (2 : ℚ) ≠ 0)]
      norm_num
    have h1 : roundBinary64 q - q =
        ((n : ℚ) - q / 2 ^ (Int.log 2 q - 52)) * 2 ^ (Int.log 2 q - 52) := by
      rw [hn]
      field_simp
    rw [h1, abs_mul, abs_of_pos hU]
    calc |(n : ℚ) - q / 2 ^ (Int.log 2 q - 52)| * 2 ^ (Int.log 2 q - 52)
          ≤ 1 / 2 * 2 ^ (Int.log 2 q - 52) := mul_le_mul_of_nonneg_right hd hU.le
      _ = 2 ^ Int.log 2 q / 2 ^ 53 := by
          rw [hUe]
          ring
      _ ≤ q / 2 ^ 53 := by
          apply div_le_div_of_nonneg_right hlog
          positivity

/-- A coarse form of `roundBinary64_near`: the result lies within one part in a
thousand of the argument. -/
theorem roundBinary64_coarse (q : ℚ) (hq : 0 ≤ q) :
    q * (999 / 1000) ≤ roundBinary64 q ∧ roundBinary64 q ≤ q * (1001 / 1000) := by
  have h := abs_le.mp (roundBinary64_near q hq)
  have hs : q / 2 ^ 53 ≤ q * (1 / 1000) := by
    rw [div_eq_mul_inv]
    apply mul_le_mul_of_nonneg_left _ hq
    norm_num
  constructor <;> linarith [h.1, h.2]

/-- Conversion to `intmax_t` of a non-negative `double` below `2 ^ 63` is
defined and gives the integer part. -/
theorem intmax_of_double_nonneg (x : ℚ) (h0 : 0 ≤ x) (h1 : x < 2 ^ 63) :
    intmax_of_double x = some ⌊x⌋ := by
  have hf0 : (0 : ℤ) ≤ ⌊x⌋ := Int.floor_nonneg.mpr h0
  have hf1 : ⌊x⌋ < 2 ^ 63 := by
    have : (⌊x⌋ : ℚ) < ((2 ^ 63 : ℤ) : ℚ) := lt_of_le_of_lt (Int.floor_le x) (by exact_mod_cast h1)
    exact_mod_cast this
  unfold intmax_of_double
  simp only [h0, if_true]
  rw [if_pos ⟨by omega, hf1⟩]

/-! ## The derived percentage: properties -/

/-- When `100 * part` and `part + rest` are below `2 ^ 53`, so that every
intermediate `double` is exact up to the final division, the percentage
converted to `intmax_t` is the integer quotient `100 * part / (part + rest)`,
and `0` when `part + rest = 0`. -/
theorem percentage_exact (part rest : ℕ) (h1 : 100 * part < 2 ^ 53)
    (h2 : part + rest < 2 ^ 53) :
    intmax_of_double (percentage part rest) =
      some (if 0 < part + rest then ((100 * part / (part + rest) : ℕ) : ℤ) else 0) := by
  have hmod : (part + rest) % 2 ^ 64 = part + rest := Nat.mod_eq_of_lt (by omega)
  have htot : intmax_of_uint64 (part + rest) = ((part + rest : ℕ) : ℤ) := by
    unfold intmax_of_uint64
    rw [if_pos (by omega)]
  unfold percentage
  simp only [hmod, htot]
  by_cases hpos : 0 < part + rest
  · have hposz : ((part + rest : ℕ) : ℤ) > 0 := by exact_mod_cast hpos
    rw [if_pos hposz, if_pos hpos]
    have e1 : double_of_uint64 part = (part : ℚ) := roundBinary64_natCast part (by omega)
    have e2 : double_mul 100 (double_of_uint64 part) = ((100 * part : ℕ) : ℚ) := by
      unfold double_mul
      rw [e1]
      have := roundBinary64_natCast (100 * part) h1
      push_cast at this ⊢
      exact this
    have e3 : double_of_intmax ((part + rest : ℕ) : ℤ) = ((part + rest : ℕ) : ℚ) := by
      unfold double_of_intmax
      have := roundBinary64_natCast (part + rest) h2
      push_cast at this ⊢
      exact this
    unfold double_div
    rw [e2, e3]
    obtain ⟨hnn, hfl⟩ := floor_roundBinary64_div (100 * part) (part + rest) hpos h1
    have hlt : roundBinary64 (((100 * part : ℕ) : ℚ) / ((part + rest : ℕ) : ℚ)) < 2 ^ 63 := by
      have hf := Int.lt_floor_add_one
        (roundBinary64 (((100 * part : ℕ) : ℚ) / ((part + rest : ℕ) : ℚ)))
      rw [hfl] at hf
      have hq : 100 * part / (part + rest) < 2 ^ 53 :=
        lt_of_le_of_lt (Nat.div_le_self _ _) h1
      have hq2 : (((100 * part / (part + rest) : ℕ) : ℤ) : ℚ) + 1 ≤ 2 ^ 63 := by
        have : 100 * part / (part + rest) + 1 ≤ 2 ^ 63 := by omega
        exact_mod_cast this
      linarith
    rw [intmax_of_double_nonneg _ hnn hlt, hfl]
  · have hz : ¬ ((part + rest : ℕ) : ℤ) > 0 := by
      intro h
      exact hpos (by exact_mod_cast h)
    rw [if_neg hz, if_neg hpos]
    rw [intmax_of_double_nonneg 0 le_rfl (by norm_num)]
    simp

/-- Whenever the sum of the two counters does not wrap, the percentage is a
`double` in `[0, 101)`. -/
theorem percentage_range (part rest : ℕ) (h : part + rest < 2 ^ 64) :
    0 ≤ percentage part rest ∧ percentage part rest < 101 := by
  have hmod : (part + rest) % 2 ^ 64 = part + rest := Nat.mod_eq_of_lt h
  unfold percentage
  simp only [hmod]
  by_cases hpos : intmax_of_uint64 (part + rest) > 0
  · rw [if_pos hpos]
    have htot : intmax_of_uint64 (part + rest) = ((part + rest : ℕ) : ℤ) := by
      unfold intmax_of_uint64 at hpos ⊢
      split_ifs at hpos ⊢ with h63
      · rfl
      · exfalso
        have : ((part + rest : ℕ) : ℤ) < 2 ^ 64 := by exact_mod_cast h
        omega
    rw [htot] at hpos ⊢
    have hposn : 0 < part + rest := by exact_mod_cast hpos
    have hp0 : (0 : ℚ) ≤ part := Nat.cast_nonneg _
    have ht0 : (0 : ℚ) < ((part + rest : ℕ) : ℚ) := by exact_mod_cast hposn
    have hpt : (part : ℚ) ≤ ((part + rest : ℕ) : ℚ) := by
      exact_mod_cast Nat.le_add_right part rest
    -- the three roundings before the division
    obtain ⟨hH0, hH1⟩ := roundBinary64_coarse (part : ℚ) hp0
    have hHnn : (0 : ℚ) ≤ roundBinary64 part := le_trans (by positivity) hH0
    obtain ⟨hX0, hX1⟩ := roundBinary64_coarse (100 * roundBinary64 (part : ℚ)) (by positivity)
    have hXnn : (0 : ℚ) ≤ roundBinary64 (100 * roundBinary64 (part : ℚ)) :=
      le_trans (by positivity) hX0
    obtain ⟨hT0, hT1⟩ := roundBinary64_coarse (((part + rest : ℕ) : ℤ) : ℚ)
      (by exact_mod_cast ht0.le)
    have hTc : ((((part + rest : ℕ) : ℤ)) : ℚ) = ((part + rest : ℕ) : ℚ) := by norm_cast
    rw [hTc] at hT0 hT1
    have hTpos : (0 : ℚ) < roundBinary64 ((((part + rest : ℕ) : ℤ)) : ℚ) := by
      rw [hTc]
      exact lt_of_lt_of_le (by positivity) hT0
    -- the quotient and its rounding
    have hQnn : (0 : ℚ) ≤ roundBinary64 (100 * roundBinary64 (part : ℚ)) /
        roundBinary64 ((((part + rest : ℕ) : ℤ)) : ℚ) := div_nonneg hXnn hTpos.le
    have hQle : roundBinary64 (100 * roundBinary64 (part : ℚ)) /
        roundBinary64 ((((part + rest : ℕ) : ℤ)) : ℚ) ≤ 1004 / 10 := by
      rw [div_le_iff₀ hTpos, hTc]
      nlinarith
    obtain ⟨hR0, hR1⟩ := roundBinary64_coarse _ hQnn
    unfold double_div double_mul double_of_uint64 double_of_intmax
    constructor
    · exact le_trans (by positivity) hR0
    · nlinarith
  · rw [if_neg hpos]
    norm_num

/-- Whenever the sum of the two counters does not wrap, the conversion of the
percentage to `intmax_t` is defined and gives an integer from 0 to 100. -/
theorem percentage_defined (part rest : ℕ) (h : part + rest < 2 ^ 64) :
    ∃ r : ℤ, 0 ≤ r ∧ r ≤ 100 ∧ intmax_of_double (percentage part rest) = some r := by
  obtain ⟨h0, h1⟩ := percentage_range part rest h
  refine ⟨⌊percentage part rest⌋, Int.floor_nonneg.mpr h0, ?_, ?_⟩
  · have : ⌊percentage part rest⌋ < 101 := by
      rw [Int.floor_lt]
      exact_mod_cast h1
    omega
  · exact intmax_of_double_nonneg _ h0 (lt_trans h1 (by norm_num))

/-! ## Reporter and parameter resolver: properties -/

/-- An `intmax_t` holding a natural number below `2 ^ 64` is printed by `%ju` as
that number. -/
theorem fmt_ju_natCast (r : ℕ) (h : r < 2 ^ 64) : fmt_ju (r : ℤ) = toString r := by
  unfold fmt_ju
  have h1 : ((r : ℤ) % 2 ^ 64).toNat = r := by
    have h2 : ((r : ℤ) % 2 ^ 64) = (r : ℤ) := Int.emod_eq_of_lt (by omega) (by exact_mod_cast h)
    rw [h2]
    simp
  rw [h1]

/-- The status word is one of the first three whenever the level comes from
`check_threshold`. -/
theorem message_and_exit_of_check_threshold (value warn crit less v : Int) (info : String) :
    message_and_exit (check_threshold value warn crit less) v info =
      { stdout := (if check_threshold value warn crit less = 0 then "OK: "
                   else if check_threshold value warn crit less = 1 then "Warning: "
                   else "Critical: ") ++ (fmt_ju v ++ " " ++ info ++ "\n"),
        stderr := "",
        code := check_threshold value warn crit less } := by
  have h : check_threshold value warn crit less = 0 ∨ check_threshold value warn crit less = 1 ∨
      check_threshold value warn crit less = 2 := by
    unfold check_threshold
    split_ifs <;> simp
  unfold message_and_exit
  rcases h with h | h | h <;> simp [h]

/-- The integer quotient `100 * part / (part + rest)` is at most 100. -/
theorem percent_le_hundred (part rest : ℕ) : 100 * part / (part + rest) ≤ 100 := by
  rcases Nat.eq_zero_or_pos (part + rest) with h | h
  · rw [h]
    simp
  · apply Nat.div_le_of_le_mul
    nlinarith

/-- C6. For counters `cache_hit` and `cache_miss` with `100 * cache_hit` and
`cache_hit + cache_miss` below `2 ^ 53` (exactly representable), `check_stats`
with parameter "ratio" returns a result, namely the report of the integer
`r = 100 * cache_hit / (cache_hit + cache_miss)` (rounded down; `r = 0` when
both counters are 0) under the label "Cache hit ratio": `r` is the value passed
to `check_threshold` and the value printed. -/
theorem check_stats_ratio (stat_field : List (String × String)) (VSL_stats : varnish_stats)
    (w c less : Int)
    (h1 : 100 * VSL_stats "cache_hit" < 2 ^ 53)
    (h2 : VSL_stats "cache_hit" + VSL_stats "cache_miss" < 2 ^ 53) :
    ∃ r : ℕ,
      r = (if 0 < VSL_stats "cache_hit" + VSL_stats "cache_miss" then
            100 * VSL_stats "cache_hit" / (VSL_stats "cache_hit" + VSL_stats "cache_miss")
          else 0) ∧
      intmax_of_double (percentage (VSL_stats "cache_hit") (VSL_stats "cache_miss")) =
        some (r : ℤ) ∧
      check_stats stat_field VSL_stats "ratio" w c less =
        some (message_and_exit (check_threshold r w c less) r "Cache hit ratio") ∧
      message_and_exit (check_threshold r w c less) r "Cache hit ratio" =
        { stdout := (if check_threshold r w c less = 0 then "OK: "
                     else if check_threshold r w c less = 1 then "Warning: "
                     else "Critical: ") ++ (toString r ++ " " ++ "Cache hit ratio" ++ "\n"),
          stderr := "",
          code := check_threshold r w c less } := by
  have hex := percentage_exact _ _ h1 h2
  refine ⟨_, rfl, ?_, ?_, ?_⟩
  · rw [hex]
    split_ifs <;> simp
  · unfold check_stats
    rw [if_pos rfl]
    simp only [hex, Option.map_some']
    split_ifs <;> simp
  · rw [message_and_exit_of_check_threshold, fmt_ju_natCast]
    have := percent_le_hundred (VSL_stats "cache_hit") (VSL_stats "cache_miss")
    split_ifs <;> omega

/-- Witness of C6 at `cache_hit = 99`, `cache_miss = 1`, thresholds 95 and 90,
"less is bad". -/
theorem check_stats_ratio_witness :
    (100 * sample_stats "cache_hit" < 2 ^ 53) ∧
    (sample_stats "cache_hit" + sample_stats "cache_miss" < 2 ^ 53) ∧
    check_stats sample_stat_field sample_stats "ratio" 95 90 1 =
      some { stdout := "OK: 99 Cache hit ratio\n", stderr := "", code := 0 } := by
  have ha : 100 * sample_stats "cache_hit" < 2 ^ 53 := by decide
  have hb : sample_stats "cache_hit" + sample_stats "cache_miss" < 2 ^ 53 := by decide
  refine ⟨ha, hb, ?_⟩
  obtain ⟨r, hr, -, hcs, hout⟩ := check_stats_ratio sample_stat_field sample_stats 95 90 1 ha hb
  have hr99 : r = 99 := by
    rw [hr]
    decide
  subst hr99
  rw [hcs, hout]
  decide

/-- C7. For counters `sm_balloc` and `sm_bfree` with `100 * sm_balloc` and
`sm_balloc + sm_bfree` below `2 ^ 53` (exactly representable), `check_stats`
with parameter "usage" returns a result, namely the report of the integer
`r = 100 * sm_balloc / (sm_balloc + sm_bfree)` (rounded down; `r = 0` when the
denominator is 0) under the label "Cache file usage". -/
theorem check_stats_usage (stat_field : List (String × String)) (VSL_stats : varnish_stats)
    (w c less : Int)
    (h1 : 100 * VSL_stats "sm_balloc" < 2 ^ 53)
    (h2 : VSL_stats "sm_balloc" + VSL_stats "sm_bfree" < 2 ^ 53) :
    ∃ r : ℕ,
      r = (if 0 < VSL_stats "sm_balloc" + VSL_stats "sm_bfree" then
            100 * VSL_stats "sm_balloc" / (VSL_stats "sm_balloc" + VSL_stats "sm_bfree")
          else 0) ∧
      intmax_of_double (percentage (VSL_stats "sm_balloc") (VSL_stats "sm_bfree")) =
        some (r : ℤ) ∧
      check_stats stat_field VSL_stats "usage" w c less =
        some (message_and_exit (check_threshold r w c less) r "Cache file usage") ∧
      message_and_exit (check_threshold r w c less) r "Cache file usage" =
        { stdout := (if check_threshold r w c less = 0 then "OK: "
                     else if check_threshold r w c less = 1 then "Warning: "
                     else "Critical: ") ++ (toString r ++ " " ++ "Cache file usage" ++ "\n"),
          stderr := "",
          code := check_threshold r w c less } := by
  have hex := percentage_exact _ _ h1 h2
  refine ⟨_, rfl, ?_, ?_, ?_⟩
  · rw [hex]
    split_ifs <;> simp
  · unfold check_stats
    rw [if_neg (by decide), if_pos rfl]
    simp only [hex, Option.map_some']
    split_ifs <;> simp
  · rw [message_and_exit_of_check_threshold, fmt_ju_natCast]
    have := percent_le_hundred (VSL_stats "sm_balloc") (VSL_stats "sm_bfree")
    split_ifs <;> omega

/-- Witness of C7 at `sm_balloc = 0`, `sm_bfree = 0`, thresholds 50 and 80: the
value is 0 and the line printed is "OK: 0 Cache file usage". -/
theorem check_stats_usage_witness :
    (100 * sample_stats "sm_balloc" < 2 ^ 53) ∧
    (sample_stats "sm_balloc" + sample_stats "sm_bfree" < 2 ^ 53) ∧
    intmax_of_double (percentage (sample_stats "sm_balloc") (sample_stats "sm_bfree")) =
      some 0 ∧
    check_stats sample_stat_field sample_stats "usage" 50 80 0 =
      some { stdout := "OK: 0 Cache file usage\n", stderr := "", code := 0 } := by
  have ha : 100 * sample_stats "sm_balloc" < 2 ^ 53 := by decide
  have hb : sample_stats "sm_balloc" + sample_stats "sm_bfree" < 2 ^ 53 := by decide
  obtain ⟨r, hr, hv, hcs, hout⟩ := check_stats_usage sample_stat_field sample_stats 50 80 0 ha hb
  have hr0 : r = 0 := by
    rw [hr]
    decide
  subst hr0
  refine ⟨ha, hb, hv, ?_⟩
  rw [hcs, hout]
  decide

/-- C8, the defect: for level 3 `message_and_exit` prints the status word
"Uknown", not "Unknown". At `level = 3`, `value = 0`, `info = "x"` the line
written is "Uknown: 0 x"; the exit code is 3. -/
theorem message_and_exit_level_three :
    message_and_exit 3 0 "x" = { stdout := "Uknown: 0 x\n", stderr := "", code := 3 } ∧
    (message_and_exit 3 0 "x").stdout ≠ "Unknown: 0 x\n" := by
  decide

/-- The part of C8 that holds: for the levels 0, 1 and 2 and a value from 0 to
`2 ^ 64 - 1`, `message_and_exit` writes the status word of the level, the value
in decimal and the label on one line, and exits with the level. -/
theorem message_and_exit_levels (value : ℕ) (info : String) (hv : value < 2 ^ 64) :
    message_and_exit 0 value info =
      { stdout := "OK: " ++ (toString value ++ " " ++ info ++ "\n"), stderr := "", code := 0 } ∧
    message_and_exit 1 value info =
      { stdout := "Warning: " ++ (toString value ++ " " ++ info ++ "\n"), stderr := "",
        code := 1 } ∧
    message_and_exit 2 value info =
      { stdout := "Critical: " ++ (toString value ++ " " ++ info ++ "\n"), stderr := "",
        code := 2 } := by
  unfold message_and_exit
  rw [fmt_ju_natCast value hv]
  simp

/-! ## The program: properties -/

/-- C5. A run with no options at all, the stats provider reachable. Whenever the
hit ratio computed by the program has a defined conversion `r` to `intmax_t`,
the run prints the one line `<StatusWord>: <r> Cache hit ratio` and exits with
`check_threshold r 95 90 1`: OK and 0 exactly when `r > 95`, Warning and 1
exactly when `90 < r ≤ 95`, Critical and 2 exactly when `r ≤ 90`. The
conversion is defined, with `0 ≤ r ≤ 100`, for every snapshot whose sum
`cache_hit + cache_miss` does not wrap. -/
theorem main_default (VSL_OpenStats : Option String → Option varnish_stats)
    (stat_field : List (String × String)) (VSL_stats : varnish_stats)
    (hopen : VSL_OpenStats none = some VSL_stats) :
    (∀ r : ℤ,
      intmax_of_double (percentage (VSL_stats "cache_hit") (VSL_stats "cache_miss")) = some r →
      main VSL_OpenStats stat_field [] =
        some { stdout := (if 95 < r then "OK: " else if 90 < r then "Warning: "
                          else "Critical: ") ++ (fmt_ju r ++ " " ++ "Cache hit ratio" ++ "\n"),
               stderr := "",
               code := check_threshold r 95 90 1 } ∧
      (check_threshold r 95 90 1 = 0 ↔ 95 < r) ∧
      (check_threshold r 95 90 1 = 1 ↔ 90 < r ∧ r ≤ 95) ∧
      (check_threshold r 95 90 1 = 2 ↔ r ≤ 90)) ∧
    (VSL_stats "cache_hit" + VSL_stats "cache_miss" < 2 ^ 64 →
      ∃ r : ℤ, 0 ≤ r ∧ r ≤ 100 ∧ fmt_ju r = toString r.toNat ∧
        intmax_of_double (percentage (VSL_stats "cache_hit") (VSL_stats "cache_miss")) =
          some r) := by
  constructor
  · intro r hr
    have hiff : (check_threshold r 95 90 1 = 0 ↔ 95 < r) ∧
        (check_threshold r 95 90 1 = 1 ↔ 90 < r ∧ r ≤ 95) ∧
        (check_threshold r 95 90 1 = 2 ↔ r ≤ 90) := by
      unfold check_threshold
      refine ⟨?_, ?_, ?_⟩ <;> constructor <;> intro h1 <;> split_ifs at * <;> omega
    refine ⟨?_, hiff.1, hiff.2.1, hiff.2.2⟩
    have hm : main VSL_OpenStats stat_field [] =
        some (message_and_exit (check_threshold r 95 90 1) r "Cache hit ratio") := by
      simp [main, option_loop, initial_args, hopen, apply_defaults, check_stats, hr]
    rw [hm, message_and_exit_of_check_threshold]
    have e0 : (check_threshold r 95 90 1 = 0) = (95 < r) := propext hiff.1
    have e1 : (check_threshold r 95 90 1 = 1) = (90 < r ∧ r ≤ 95) := propext hiff.2.1
    by_cases c0 : 95 < r
    · simp [e0, c0]
    · by_cases c1 : 90 < r
      · have c2 : r ≤ 95 := by omega
        simp [e0, e1, c0, c1, c2]
      · simp [e0, e1, c0, c1]
  · intro hsum
    obtain ⟨r, h0, h100, hr⟩ := percentage_defined _ _ hsum
    refine ⟨r, h0, h100, ?_, hr⟩
    obtain ⟨k, rfl⟩ := Int.eq_ofNat_of_zero_le h0
    rw [fmt_ju_natCast k (by omega)]
    simp

/-- Witness of C5: `cache_hit = 99`, `cache_miss = 1` gives the line
"OK: 99 Cache hit ratio" and exit code 0. -/
theorem main_default_witness :
    sample_provider none = some sample_stats ∧
    intmax_of_double (percentage (sample_stats "cache_hit") (sample_stats "cache_miss")) =
      some 99 ∧
    main sample_provider sample_stat_field [] =
      some { stdout := "OK: 99 Cache hit ratio\n", stderr := "", code := 0 } := by
  have hconv : intmax_of_double
      (percentage (sample_stats "cache_hit") (sample_stats "cache_miss")) = some 99 := by
    rw [percentage_exact _ _ (by decide) (by decide)]
    decide
  refine ⟨rfl, hconv, ?_⟩
  rw [((main_default sample_provider sample_stat_field sample_stats rfl).1 99 hconv).1]
  decide

/-- A name that no entry of the counter table carries falls through the whole
`MAC_STAT` chain to the final `else`. -/
theorem MAC_STAT_chain_unknown (VSL_stats : varnish_stats) (param : String) (w c less : Int)
    (stat_field : List (String × String)) (h : ∀ e ∈ stat_field, e.1 ≠ param) :
    MAC_STAT_chain VSL_stats param w c less stat_field =
      { stdout := "Unknown parameter '" ++ param ++ "'\n", stderr := "", code := 3 } := by
  induction stat_field with
  | nil => rfl
  | cons e rest ih =>
    obtain ⟨n, d⟩ := e
    have hne : param ≠ n := fun heq => h (n, d) (List.mem_cons_self _ _) heq.symm
    unfold MAC_STAT_chain
    rw [if_neg hne]
    exact ih fun e he => h e (List.mem_cons_of_mem _ he)

/-- C9, refuted as stated: the run with the single option `-p doesnotexist`
(provider reachable, the name neither "ratio" nor "usage" nor in the counter
table) writes nothing to standard output, the usage line to standard error,
and exits with 3: the text "Unknown parameter 'doesnotexist'" is not printed. -/
theorem main_unknown_parameter_alone :
    "doesnotexist" ≠ "ratio" ∧ "doesnotexist" ≠ "usage" ∧
    "doesnotexist" ∉ sample_stat_field.map Prod.fst ∧
    main sample_provider sample_stat_field [Opt.p "doesnotexist"] =
      some { stdout := "", stderr := usage_line, code := 3 } ∧
    main sample_provider sample_stat_field [Opt.p "doesnotexist"] ≠
      some { stdout := "Unknown parameter 'doesnotexist'\n", stderr := "", code := 3 } := by
  decide

/-- C9, amended. Let the option loop end normally (every option recognised, no
`-h`) with the parameter `name` and at least one non-zero threshold, and let
the stats provider be reachable. If `name` is neither "ratio" nor "usage" nor
a counter name of the table, the run prints `Unknown parameter 'name'` and
nothing else, and exits with 3. -/
theorem main_unknown_parameter (VSL_OpenStats : Option String → Option varnish_stats)
    (stat_field : List (String × String)) (opts : List Opt) (a : Args)
    (VSL_stats : varnish_stats) (name : String)
    (hloop : option_loop opts initial_args = .ok a)
    (hparam : a.param = some name)
    (hthr : a.warning ≠ 0 ∨ a.critical ≠ 0)
    (hopen : VSL_OpenStats a.n_arg = some VSL_stats)
    (hratio : name ≠ "ratio") (husage : name ≠ "usage")
    (htable : ∀ e ∈ stat_field, e.1 ≠ name) :
    main VSL_OpenStats stat_field opts =
      some { stdout := "Unknown parameter '" ++ name ++ "'\n", stderr := "", code := 3 } := by
  have hdef : apply_defaults a = a := by
    unfold apply_defaults
    rw [hparam]
  have hnz : ¬ (a.critical = 0 ∧ a.warning = 0) := by
    rintro ⟨h1, h2⟩
    rcases hthr with h | h
    · exact h h2
    · exact h h1
  unfold main
  simp only [hloop, hopen, hdef, hparam]
  rw [if_neg hnz]
  unfold check_stats
  rw [if_neg hratio, if_neg husage, MAC_STAT_chain_unknown _ _ _ _ _ _ htable]

/-- Witness of the amended C9: the options `-p doesnotexist -w 1`. -/
theorem main_unknown_parameter_witness :
    main sample_provider sample_stat_field [Opt.p "doesnotexist", Opt.w "1"] =
      some { stdout := "Unknown parameter 'doesnotexist'\n", stderr := "", code := 3 } :=
  main_unknown_parameter sample_provider sample_stat_field
    [Opt.p "doesnotexist", Opt.w "1"]
    { critical := 0, warning := 1, n_arg := none, param := some "doesnotexist", less := 0 }
    sample_stats "doesnotexist" rfl rfl (by decide) rfl (by decide) (by decide)
    (by decide)

/-- With both thresholds zero at the start and every `-w` and `-c` argument
converting to zero, the option loop without `-h` either ends in `usage` or ends
normally with both thresholds still zero, and then a parameter is set as soon
as one was set before or a `-p` option is present. -/
theorem option_loop_zero_thresholds (opts : List Opt) (hh : Opt.h ∉ opts)
    (hw : ∀ s, Opt.w s ∈ opts → atoi s = 0) (hc : ∀ s, Opt.c s ∈ opts → atoi s = 0)
    (a : Args) (haw : a.warning = 0) (hac : a.critical = 0) :
    option_loop opts a = .error usage ∨
    ∃ b, option_loop opts a = .ok b ∧ b.warning = 0 ∧ b.critical = 0 ∧
      ((a.param.isSome ∨ ∃ name, Opt.p name ∈ opts) → b.param.isSome) := by
  induction opts generalizing a with
  | nil =>
    right
    refine ⟨a, rfl, haw, hac, ?_⟩
    rintro (h | ⟨name, h⟩)
    · exact h
    · simp at h
  | cons o rest ih =>
    have hh2 : Opt.h ∉ rest := fun h => hh (List.mem_cons_of_mem _ h)
    have hw2 : ∀ s, Opt.w s ∈ rest → atoi s = 0 := fun s h => hw s (List.mem_cons_of_mem _ h)
    have hc2 : ∀ s, Opt.c s ∈ rest → atoi s = 0 := fun s h => hc s (List.mem_cons_of_mem _ h)
    cases o with
    | c optarg =>
      have h0 : atoi optarg = 0 := hc optarg (List.mem_cons_self _ _)
      rcases ih hh2 hw2 hc2 { a with critical := atoi optarg } haw h0 with h | ⟨b, h1, h2, h3, h4⟩
      · left
        simpa [option_loop] using h
      · right
        refine ⟨b, by simpa [option_loop] using h1, h2, h3, ?_⟩
        rintro (h | ⟨name, h⟩)
        · exact h4 (Or.inl h)
        · simp at h
          exact h4 (Or.inr ⟨name, h⟩)
    | h => exact absurd (List.mem_cons_self _ _) hh
    | l =>
      rcases ih hh2 hw2 hc2 { a with less := 1 } haw hac with h | ⟨b, h1, h2, h3, h4⟩
      · left
        simpa [option_loop] using h
      · right
        refine ⟨b, by simpa [option_loop] using h1, h2, h3, ?_⟩
        rintro (h | ⟨name, h⟩)
        · exact h4 (Or.inl h)
        · simp at h
          exact h4 (Or.inr ⟨name, h⟩)
    | n optarg =>
      rcases ih hh2 hw2 hc2 { a with n_arg := some optarg } haw hac with h | ⟨b, h1, h2, h3, h4⟩
      · left
        simpa [option_loop] using h
      · right
        refine ⟨b, by simpa [option_loop] using h1, h2, h3, ?_⟩
        rintro (h | ⟨name, h⟩)
        · exact h4 (Or.inl h)
        · simp at h
          exact h4 (Or.inr ⟨name, h⟩)
    | p optarg =>
      rcases ih hh2 hw2 hc2 { a with param := some optarg } haw hac with h | ⟨b, h1, h2, h3, h4⟩
      · left
        simpa [option_loop] using h
      · right
        exact ⟨b, by simpa [option_loop] using h1, h2, h3, fun _ => h4 (Or.inl rfl)⟩
    | w optarg =>
      have h0 : atoi optarg = 0 := hw optarg (List.mem_cons_self _ _)
      rcases ih hh2 hw2 hc2 { a with warning := atoi optarg } h0 hac with h | ⟨b, h1, h2, h3, h4⟩
      · left
        simpa [option_loop] using h
      · right
        refine ⟨b, by simpa [option_loop] using h1, h2, h3, ?_⟩
        rintro (h | ⟨name, h⟩)
        · exact h4 (Or.inl h)
        · simp at h
          exact h4 (Or.inr ⟨name, h⟩)
    | other =>
      left
      rfl

/-- C10, refuted as stated: the run with the options `-p client_conn -h`, both
thresholds absent and the provider reachable, ends in `help` with exit code 0,
not 3. -/
theorem main_parameter_with_help :
    main sample_provider sample_stat_field [Opt.p "client_conn", Opt.h] = some help ∧
    help.stdout = "" ∧ help.code = 0 ∧ help.code ≠ 3 :=
  ⟨rfl, rfl, rfl, by decide⟩

/-- C10, amended. For every run without `-h` that gives `-p NAME` (any name)
and in which every `-w` and `-c` argument is absent or converts to zero, with
the stats provider reachable, the process ends in `usage`: nothing on standard
output, the usage line on standard error, exit code 3. `check_stats`, the only
caller of the evaluator, is not reached. -/
theorem main_usage_without_thresholds (VSL_OpenStats : Option String → Option varnish_stats)
    (stat_field : List (String × String)) (opts : List Opt)
    (hh : Opt.h ∉ opts) (hp : ∃ name, Opt.p name ∈ opts)
    (hw : ∀ s, Opt.w s ∈ opts → atoi s = 0) (hc : ∀ s, Opt.c s ∈ opts → atoi s = 0)
    (hopen : ∀ n_arg, (VSL_OpenStats n_arg).isSome) :
    main VSL_OpenStats stat_field opts =
      some { stdout := "", stderr := usage_line, code := 3 } := by
  rcases option_loop_zero_thresholds opts hh hw hc initial_args rfl rfl with
    h | ⟨b, h1, h2, h3, h4⟩
  · unfold main
    rw [h]
    rfl
  · obtain ⟨name, hname⟩ := Option.isSome_iff_exists.mp (h4 (Or.inr hp))
    obtain ⟨stats, hstats⟩ := Option.isSome_iff_exists.mp (hopen b.n_arg)
    have hdef : apply_defaults b = b := by
      unfold apply_defaults
      rw [hname]
    unfold main
    simp only [h1, hstats, hdef, hname]
    rw [if_pos ⟨h3, h2⟩]
    rfl

/-- Witness of the amended C10: the single option `-p client_conn`. -/
theorem main_usage_without_thresholds_witness :
    main sample_provider sample_stat_field [Opt.p "client_conn"] =
      some { stdout := "", stderr := usage_line, code := 3 } :=
  main_usage_without_thresholds sample_provider sample_stat_field [Opt.p "client_conn"]
    (by decide) ⟨"client_conn", by decide⟩ (by simp) (by simp) (fun _ => rfl)

/-! ## The threshold evaluator: order properties -/

/-- The result of `check_threshold` is 0, 1 or 2. -/
theorem check_threshold_range (value warn crit less : Int) :
    check_threshold value warn crit less = 0 ∨ check_threshold value warn crit less = 1 ∨
      check_threshold value warn crit less = 2 := by
  unfold check_threshold
  split_ifs <;> simp

/-- C15. Severity is monotone in the measured value, whatever the order of the
thresholds: for `v1 ≤ v2` the level of `v1` is at most the level of `v2` in
the "more is worse" direction, and at least the level of `v2` in the "less is
bad" direction. -/
theorem check_threshold_monotone (warn crit v1 v2 : Int) (h : v1 ≤ v2) :
    check_threshold v1 warn crit 0 ≤ check_threshold v2 warn crit 0 ∧
    check_threshold v1 warn crit 1 ≥ check_threshold v2 warn crit 1 := by
  unfold check_threshold
  constructor <;> split_ifs <;> omega

/-- Witness of C15 at `warn = 50`, `crit = 10` (thresholds in the "wrong"
order), `v1 = 20`, `v2 = 60`. -/
theorem check_threshold_monotone_witness :
    ((20 : Int) ≤ 60) ∧
    (check_threshold 20 50 10 0 ≤ check_threshold 60 50 10 0 ∧
     check_threshold 20 50 10 1 ≥ check_threshold 60 50 10 1) :=
  ⟨by decide, check_threshold_monotone 50 10 20 60 (by decide)⟩

/-- C18. The two directions are mirror images: the "less is bad" level of
`value` against `warn` and `crit` is the "more is worse" level of `-value`
against `-warn` and `-crit`. -/
theorem check_threshold_mirror (value warn crit : Int) :
    check_threshold value warn crit 1 = check_threshold (-value) (-warn) (-crit) 0 := by
  unfold check_threshold
  split_ifs <;> omega

/-! ## The option loop: properties -/

/-- When the option loop is cut short, it is by `help` or by `usage`. -/
theorem option_loop_error (opts : List Opt) (a : Args) (o : Outcome)
    (h : option_loop opts a = .error o) : o = help ∨ o = usage := by
  induction opts generalizing a with
  | nil => simp [option_loop] at h
  | cons x rest ih =>
    cases x with
    | c optarg => exact ih _ (by simpa [option_loop] using h)
    | h =>
      left
      simp [option_loop] at h
      exact h.symm
    | l => exact ih _ (by simpa [option_loop] using h)
    | n optarg => exact ih _ (by simpa [option_loop] using h)
    | p optarg => exact ih _ (by simpa [option_loop] using h)
    | w optarg => exact ih _ (by simpa [option_loop] using h)
    | other =>
      right
      simp [option_loop] at h
      exact h.symm

/-- Without `-h` and without unrecognised options the loop runs to its end. -/
theorem option_loop_ok (opts : List Opt) (hh : Opt.h ∉ opts) (ho : Opt.other ∉ opts)
    (a : Args) : ∃ b, option_loop opts a = .ok b := by
  induction opts generalizing a with
  | nil => exact ⟨a, rfl⟩
  | cons x rest ih =>
    have hh2 : Opt.h ∉ rest := fun h => hh (List.mem_cons_of_mem _ h)
    have ho2 : Opt.other ∉ rest := fun h => ho (List.mem_cons_of_mem _ h)
    cases x with
    | c optarg => simpa [option_loop] using ih hh2 ho2 _
    | h => exact absurd (List.mem_cons_self _ _) hh
    | l => simpa [option_loop] using ih hh2 ho2 _
    | n optarg => simpa [option_loop] using ih hh2 ho2 _
    | p optarg => simpa [option_loop] using ih hh2 ho2 _
    | w optarg => simpa [option_loop] using ih hh2 ho2 _
    | other => exact absurd (List.mem_cons_self _ _) ho

/-- What a completed option loop leaves in the variables it does not assign:
a variable keeps its value when its option is absent, `less` is 1 as soon as
`-l` is present, and `param` is set as soon as `-p` is present. -/
theorem option_loop_frame (opts : List Opt) (a b : Args) (h : option_loop opts a = .ok b) :
    ((∀ s, Opt.w s ∉ opts) → b.warning = a.warning) ∧
    ((∀ s, Opt.c s ∉ opts) → b.critical = a.critical) ∧
    ((∀ s, Opt.p s ∉ opts) → b.param = a.param) ∧
    ((∃ s, Opt.p s ∈ opts) → b.param.isSome) ∧
    (b.less = if Opt.l ∈ opts then 1 else a.less) := by
  induction opts generalizing a with
  | nil =>
    simp [option_loop] at h
    subst h
    simp
  | cons x rest ih =>
    cases x with
    | c optarg =>
      obtain ⟨h1, h2, h3, h4, h5⟩ := ih _ (by simpa [option_loop] using h)
      refine ⟨fun hw => ?_, fun hc => ?_, fun hp => ?_, fun hp => ?_, ?_⟩
      · exact h1 fun s hs => hw s (List.mem_cons_of_mem _ hs)
      · exact absurd (List.mem_cons_self _ _) (hc optarg)
      · exact h3 fun s hs => hp s (List.mem_cons_of_mem _ hs)
      · obtain ⟨s, hs⟩ := hp
        simp at hs
        exact h4 ⟨s, hs⟩
      · simpa using h5
    | h => simp [option_loop] at h
    | l =>
      obtain ⟨h1, h2, h3, h4, h5⟩ := ih _ (by simpa [option_loop] using h)
      refine ⟨fun hw => ?_, fun hc => ?_, fun hp => ?_, fun hp => ?_, ?_⟩
      · exact h1 fun s hs => hw s (List.mem_cons_of_mem _ hs)
      · exact h2 fun s hs => hc s (List.mem_cons_of_mem _ hs)
      · exact h3 fun s hs => hp s (List.mem_cons_of_mem _ hs)
      · obtain ⟨s, hs⟩ := hp
        simp at hs
        exact h4 ⟨s, hs⟩
      · rw [h5]
        simp
    | n optarg =>
      obtain ⟨h1, h2, h3, h4, h5⟩ := ih _ (by simpa [option_loop] using h)
      refine ⟨fun hw => ?_, fun hc => ?_, fun hp => ?_, fun hp => ?_, ?_⟩
      · exact h1 fun s hs => hw s (List.mem_cons_of_mem _ hs)
      · exact h2 fun s hs => hc s (List.mem_cons_of_mem _ hs)
      · exact h3 fun s hs => hp s (List.mem_cons_of_mem _ hs)
      · obtain ⟨s, hs⟩ := hp
        simp at hs
        exact h4 ⟨s, hs⟩
      · simpa using h5
    | p optarg =>
      obtain ⟨h1, h2, h3, h4, h5⟩ := ih _ (by simpa [option_loop] using h)
      refine ⟨fun hw => ?_, fun hc => ?_, fun hp => ?_, fun _ => ?_, ?_⟩
      · exact h1 fun s hs => hw s (List.mem_cons_of_mem _ hs)
      · exact h2 fun s hs => hc s (List.mem_cons_of_mem _ hs)
      · exact absurd (List.mem_cons_self _ _) (hp optarg)
      · by_cases hr : ∃ s, Opt.p s ∈ rest
        · exact h4 hr
        · have hnone : ∀ s, Opt.p s ∉ rest := fun s hs => hr ⟨s, hs⟩
          rw [h3 hnone]
          rfl
      · simpa using h5
    | w optarg =>
      obtain ⟨h1, h2, h3, h4, h5⟩ := ih _ (by simpa [option_loop] using h)
      refine ⟨fun hw => ?_, fun hc => ?_, fun hp => ?_, fun hp => ?_, ?_⟩
      · exact absurd (List.mem_cons_self _ _) (hw optarg)
      · exact h2 fun s hs => hc s (List.mem_cons_of_mem _ hs)
      · exact h3 fun s hs => hp s (List.mem_cons_of_mem _ hs)
      · obtain ⟨s, hs⟩ := hp
        simp at hs
        exact h4 ⟨s, hs⟩
      · simpa using h5
    | other => simp [option_loop] at h

/-- A completed loop over `xs ++ ys` is a completed loop over `xs` followed by
a completed loop over `ys`. -/
theorem option_loop_append (xs ys : List Opt) (a b : Args)
    (h : option_loop (xs ++ ys) a = .ok b) :
    ∃ m, option_loop xs a = .ok m ∧ option_loop ys m = .ok b := by
  induction xs generalizing a with
  | nil => exact ⟨a, rfl, by simpa using h⟩
  | cons x rest ih =>
    cases x with
    | c optarg => simpa [option_loop] using ih _ (by simpa [option_loop] using h)
    | h => simp [option_loop] at h
    | l => simpa [option_loop] using ih _ (by simpa [option_loop] using h)
    | n optarg => simpa [option_loop] using ih _ (by simpa [option_loop] using h)
    | p optarg => simpa [option_loop] using ih _ (by simpa [option_loop] using h)
    | w optarg => simpa [option_loop] using ih _ (by simpa [option_loop] using h)
    | other => simp [option_loop] at h

/-- After a completed loop the warning threshold is the conversion of the last
`-w` argument, the critical threshold that of the last `-c` argument, and the
parameter the last `-p` argument. -/
theorem option_loop_last (opts xs ys : List Opt) (s : String) (a b : Args)
    (h : option_loop opts a = .ok b) :
    (opts = xs ++ Opt.w s :: ys → (∀ t, Opt.w t ∉ ys) → b.warning = atoi s) ∧
    (opts = xs ++ Opt.c s :: ys → (∀ t, Opt.c t ∉ ys) → b.critical = atoi s) ∧
    (opts = xs ++ Opt.p s :: ys → (∀ t, Opt.p t ∉ ys) → b.param = some s) := by
  refine ⟨fun he hn => ?_, fun he hn => ?_, fun he hn => ?_⟩
  · subst he
    obtain ⟨m, -, h2⟩ := option_loop_append _ _ _ _ h
    have h3 : option_loop ys { m with warning := atoi s } = .ok b := by
      simpa [option_loop] using h2
    rw [(option_loop_frame _ _ _ h3).1 hn]
  · subst he
    obtain ⟨m, -, h2⟩ := option_loop_append _ _ _ _ h
    have h3 : option_loop ys { m with critical := atoi s } = .ok b := by
      simpa [option_loop] using h2
    rw [(option_loop_frame _ _ _ h3).2.1 hn]
  · subst he
    obtain ⟨m, -, h2⟩ := option_loop_append _ _ _ _ h
    have h3 : option_loop ys { m with param := some s } = .ok b := by
      simpa [option_loop] using h2
    rw [(option_loop_frame _ _ _ h3).2.2.1 hn]

/-! ## The program: defaults and acquisition -/

/-- The "ratio" branch of `check_stats` on the sample snapshot: the value is 99
for all thresholds. -/
theorem check_stats_sample_ratio (w c less : Int) :
    check_stats sample_stat_field sample_stats "ratio" w c less =
      some (message_and_exit (check_threshold 99 w c less) 99 "Cache hit ratio") := by
  have hex := percentage_exact (sample_stats "cache_hit") (sample_stats "cache_miss")
    (by decide) (by decide)
  have h99 : (if 0 < sample_stats "cache_hit" + sample_stats "cache_miss" then
      ((100 * sample_stats "cache_hit" /
        (sample_stats "cache_hit" + sample_stats "cache_miss") : ℕ) : ℤ) else 0) = 99 := by
    decide
  rw [h99] at hex
  unfold check_stats
  rw [if_pos rfl]
  simp only [hex, Option.map_some']

/-- C11, refuted as stated: the run with the single option `-w 0` supplies
`-w`, and yet the defaults are applied: the loop leaves warning 0, critical 0
and `less` 0, the defaulting step turns them into 95, 90 and 1, and the run
prints "OK: 99 Cache hit ratio" and exits with 0, exactly as the run without
options. -/
theorem main_defaults_with_zero_warning :
    Opt.w "0" ∈ [Opt.w "0"] ∧
    option_loop [Opt.w "0"] initial_args =
      .ok { critical := 0, warning := 0, n_arg := none, param := none, less := 0 } ∧
    apply_defaults { critical := 0, warning := 0, n_arg := none, param := none, less := 0 } =
      { critical := 90, warning := 95, n_arg := none, param := some "ratio", less := 1 } ∧
    main sample_provider sample_stat_field [Opt.w "0"] =
      some { stdout := "OK: 99 Cache hit ratio\n", stderr := "", code := 0 } ∧
    main sample_provider sample_stat_field [Opt.w "0"] =
      main sample_provider sample_stat_field [] := by
  have hl : option_loop [Opt.w "0"] initial_args =
      .ok { critical := 0, warning := 0, n_arg := none, param := none, less := 0 } := rfl
  have hm : main sample_provider sample_stat_field [Opt.w "0"] =
      check_stats sample_stat_field sample_stats "ratio" 95 90 1 := by
    unfold main
    simp only [hl]
    simp [sample_provider, apply_defaults]
  have hm0 : main sample_provider sample_stat_field [] =
      check_stats sample_stat_field sample_stats "ratio" 95 90 1 := by
    unfold main
    simp [option_loop, initial_args, sample_provider, apply_defaults]
  refine ⟨by decide, hl, by decide, ?_, by rw [hm, hm0]⟩
  rw [hm, check_stats_sample_ratio]
  decide

/-- C11, amended. Let the option loop end normally with the variables `a0` and
let the stats provider be reachable. Without `-p` the parameter is "ratio";
the defaults (warning 95, critical 90, "less is bad") are applied exactly when
both thresholds are zero after the loop, which is the case when neither `-w`
nor `-c` was given; when one of them is non-zero, the thresholds and the
direction left by the loop are used unchanged. With `-p` no default is
applied: the run is the usage error when both thresholds are zero and
`check_stats` on the values left by the loop otherwise. The loop leaves in
`warning` and `critical` the conversion of the last `-w` and `-c` argument
(zero when absent) and in `less` 1 or 0 as `-l` is present or absent. -/
theorem main_defaulting (VSL_OpenStats : Option String → Option varnish_stats)
    (stat_field : List (String × String)) (opts : List Opt) (a0 : Args)
    (VSL_stats : varnish_stats)
    (hloop : option_loop opts initial_args = .ok a0)
    (hopen : VSL_OpenStats a0.n_arg = some VSL_stats) :
    ((∀ s, Opt.p s ∉ opts) →
      (a0.warning = 0 ∧ a0.critical = 0 →
        main VSL_OpenStats stat_field opts =
          check_stats stat_field VSL_stats "ratio" 95 90 1) ∧
      (¬ (a0.warning = 0 ∧ a0.critical = 0) →
        main VSL_OpenStats stat_field opts =
          check_stats stat_field VSL_stats "ratio" a0.warning a0.critical a0.less)) ∧
    ((∃ s, Opt.p s ∈ opts) →
      ∃ name, a0.param = some name ∧
        main VSL_OpenStats stat_field opts =
          if a0.critical = 0 ∧ a0.warning = 0 then some usage
          else check_stats stat_field VSL_stats name a0.warning a0.critical a0.less) ∧
    ((∀ s, Opt.w s ∉ opts) → a0.warning = 0) ∧
    ((∀ s, Opt.c s ∉ opts) → a0.critical = 0) ∧
    (∀ xs ys s, opts = xs ++ Opt.w s :: ys → (∀ t, Opt.w t ∉ ys) → a0.warning = atoi s) ∧
    (∀ xs ys s, opts = xs ++ Opt.c s :: ys → (∀ t, Opt.c t ∉ ys) → a0.critical = atoi s) ∧
    (a0.less = if Opt.l ∈ opts then 1 else 0) := by
  obtain ⟨f1, f2, f3, f4, f5⟩ := option_loop_frame opts initial_args a0 hloop
  refine ⟨fun hp => ?_, fun hp => ?_, f1, f2, ?_, ?_, f5⟩
  · have hnone : a0.param = none := f3 hp
    constructor
    · rintro ⟨hw, hc⟩
      unfold main
      simp only [hloop, hopen]
      simp [apply_defaults, hnone, hw, hc]
    · intro hnz
      have hnz2 : ¬ (a0.critical = 0 ∧ a0.warning = 0) := fun h => hnz ⟨h.2, h.1⟩
      unfold main
      simp only [hloop, hopen]
      simp [apply_defaults, hnone, hnz, hnz2]
  · obtain ⟨name, hname⟩ := Option.isSome_iff_exists.mp (f4 hp)
    refine ⟨name, hname, ?_⟩
    have hdef : apply_defaults a0 = a0 := by
      unfold apply_defaults
      rw [hname]
    unfold main
    simp only [hloop, hopen, hdef, hname]
  · intro xs ys s he hn
    exact (option_loop_last opts xs ys s initial_args a0 hloop).1 he hn
  · intro xs ys s he hn
    exact (option_loop_last opts xs ys s initial_args a0 hloop).2.1 he hn

/-- Witness of the amended C11: the options `-w 97 -c 98`, without `-p` and
without `-l`, run `check_stats` on "ratio" with the thresholds 97 and 98 in
the "more is worse" direction. -/
theorem main_defaulting_witness :
    option_loop [Opt.w "97", Opt.c "98"] initial_args =
      .ok { critical := 98, warning := 97, n_arg := none, param := none, less := 0 } ∧
    main sample_provider sample_stat_field [Opt.w "97", Opt.c "98"] =
      check_stats sample_stat_field sample_stats "ratio" 97 98 0 :=
  ⟨rfl,
   ((main_defaulting sample_provider sample_stat_field [Opt.w "97", Opt.c "98"]
      { critical := 98, warning := 97, n_arg := none, param := none, less := 0 }
      sample_stats rfl rfl).1 (by simp)).2 (by decide)⟩

/-- C12. For every run whose options are all recognised and do not include
`-h`, if the stats provider cannot be opened the process exits with code 1 and
has written nothing to standard output, whatever the parameter and the
thresholds are. -/
theorem main_acquisition_failure (VSL_OpenStats : Option String → Option varnish_stats)
    (stat_field : List (String × String)) (opts : List Opt)
    (hh : Opt.h ∉ opts) (ho : Opt.other ∉ opts)
    (hfail : ∀ a0, option_loop opts initial_args = .ok a0 → VSL_OpenStats a0.n_arg = none) :
    main VSL_OpenStats stat_field opts = some { stdout := "", stderr := "", code := 1 } := by
  obtain ⟨a0, h0⟩ := option_loop_ok opts hh ho initial_args
  unfold main
  simp only [h0, hfail a0 h0]

/-- Witness of C12: the options `-n nowhere -p client_conn`, which would be a
usage error with a reachable provider, exit with 1 when the provider cannot be
opened. -/
theorem main_acquisition_failure_witness :
    main (fun _ => none) sample_stat_field [Opt.n "nowhere", Opt.p "client_conn"] =
      some { stdout := "", stderr := "", code := 1 } :=
  main_acquisition_failure (fun _ => none) sample_stat_field
    [Opt.n "nowhere", Opt.p "client_conn"] (by decide) (by decide) (fun _ _ => rfl)

/-! ## Floating point: evaluation at given arguments -/

/-- The binary exponent of a positive rational is fixed by the two powers of
two that bracket it. -/
theorem log_of_bracket (q : ℚ) (e : ℤ) (hq : 0 < q) (h1 : (2 : ℚ) ^ e ≤ q)
    (h2 : q < (2 : ℚ) ^ (e + 1)) : Int.log 2 q = e := by
  have a1 : e ≤ Int.log 2 q := by
    apply (Int.zpow_le_iff_le_log (b := 2) (by norm_num) hq).mp
    simpa using h1
  have a2 : Int.log 2 q < e + 1 := by
    apply (Int.lt_zpow_iff_log_lt (b := 2) (by norm_num) hq).mp
    simpa using h2
  omega

/-- Evaluation of the rounding: for `2 ^ e ≤ q < 2 ^ (e + 1)` the result is
`n * 2 ^ (e - 52)` as soon as the integer `n` is nearer to `q / 2 ^ (e - 52)`
than one half, or at distance one half and even. -/
theorem roundBinary64_of_bracket (q : ℚ) (e n : ℤ) (hq : 0 < q) (h1 : (2 : ℚ) ^ e ≤ q)
    (h2 : q < (2 : ℚ) ^ (e + 1))
    (hn : |(n : ℚ) - q / (2 : ℚ) ^ (e - 52)| < 1 / 2 ∨
      (|(n : ℚ) - q / (2 : ℚ) ^ (e - 52)| = 1 / 2 ∧ n % 2 = 0)) :
    roundBinary64 q = n * (2 : ℚ) ^ (e - 52) := by
  have hlog : Int.log 2 |q| = e := by
    rw [abs_of_pos hq]
    exact log_of_bracket q e hq h1 h2
  have hf0 : (⌊q / (2 : ℚ) ^ (e - 52)⌋ : ℚ) ≤ q / (2 : ℚ) ^ (e - 52) := Int.floor_le _
  have hf1 : q / (2 : ℚ) ^ (e - 52) < ⌊q / (2 : ℚ) ^ (e - 52)⌋ + 1 := Int.lt_floor_add_one _
  unfold roundBinary64
  rw [if_neg hq.ne.symm]
  simp only [hlog]
  generalize q / (2 : ℚ) ^ (e - 52) = m at hn hf0 hf1 ⊢
  generalize hfl : ⌊m⌋ = f at hf0 hf1 ⊢
  have key : ∀ k : ℤ, |(n : ℚ) - k| < 1 → n = k := by
    intro k hk
    have h3 : |n - k| < 1 := by
      have : ((|n - k| : ℤ) : ℚ) < 1 := by
        push_cast
        exact hk
      exact_mod_cast this
    have := abs_lt.mp h3
    omega
  congr 1
  congr 1
  split_ifs with c1 c2 c3
  · symm
    apply key
    rcases hn with h | ⟨h, -⟩
    · have := abs_lt.mp h
      rw [abs_lt]
      constructor <;> linarith
    · have := abs_le.mp h.le
      rw [abs_lt]
      constructor <;> linarith
  · symm
    have := key (f + 1)
    apply this
    push_cast
    rcases hn with h | ⟨h, -⟩
    · have := abs_lt.mp h
      rw [abs_lt]
      constructor <;> linarith
    · have := abs_le.mp h.le
      rw [abs_lt]
      constructor <;> linarith
  · have hm : m = f + 1 / 2 := by linarith [not_lt.mp c1, not_lt.mp c2]
    rcases hn with h | ⟨h, hev⟩
    · exfalso
      have h4 := abs_lt.mp h
      rw [hm] at h4
      have h5 : ((0 : ℤ) : ℚ) < ((n - f : ℤ) : ℚ) := by
        push_cast
        linarith [h4.1]
      have h6 : ((n - f : ℤ) : ℚ) < ((1 : ℤ) : ℚ) := by
        push_cast
        linarith [h4.2]
      have h7 : (0 : ℤ) < n - f := by exact_mod_cast h5
      have h8 : n - f < 1 := by exact_mod_cast h6
      omega
    · have h4 := abs_le.mp h.le
      rw [hm] at h4
      have h5 : ((-1 : ℤ) : ℚ) < ((n - f : ℤ) : ℚ) := by
        push_cast
        linarith [h4.1]
      have h6 : ((n - f : ℤ) : ℚ) < ((2 : ℤ) : ℚ) := by
        push_cast
        linarith [h4.2]
      have h7 : (-1 : ℤ) < n - f := by exact_mod_cast h5
      have h8 : n - f < 2 := by exact_mod_cast h6
      omega
  · have hm : m = f + 1 / 2 := by linarith [not_lt.mp c1, not_lt.mp c2]
    rcases hn with h | ⟨h, hev⟩
    · exfalso
      have h4 := abs_lt.mp h
      rw [hm] at h4
      have h5 : ((0 : ℤ) : ℚ) < ((n - f : ℤ) : ℚ) := by
        push_cast
        linarith [h4.1]
      have h6 : ((n - f : ℤ) : ℚ) < ((1 : ℤ) : ℚ) := by
        push_cast
        linarith [h4.2]
      have h7 : (0 : ℤ) < n - f := by exact_mod_cast h5
      have h8 : n - f < 1 := by exact_mod_cast h6
      omega
    · have h4 := abs_le.mp h.le
      rw [hm] at h4
      have h5 : ((-1 : ℤ) : ℚ) < ((n - f : ℤ) : ℚ) := by
        push_cast
        linarith [h4.1]
      have h6 : ((n - f : ℤ) : ℚ) < ((2 : ℤ) : ℚ) := by
        push_cast
        linarith [h4.2]
      have h7 : (-1 : ℤ) < n - f := by exact_mod_cast h5
      have h8 : n - f < 2 := by exact_mod_cast h6
      omega

/-- The percentage for `2 ^ 53` hits and one miss is exactly 100: the sum
`2 ^ 53 + 1` is not a `double` and is rounded to `2 ^ 53`. -/
theorem percentage_large : percentage (2 ^ 53) 1 = 100 := by
  have e1 : double_of_uint64 (2 ^ 53) = 2 ^ 53 := by
    unfold double_of_uint64
    rw [show (((2 : ℕ) ^ 53 : ℕ) : ℚ) = (2 : ℚ) ^ 53 by norm_num]
    rw [roundBinary64_of_bracket (2 ^ 53) 53 (2 ^ 52) (by norm_num) (by norm_num)
      (by norm_num) (by left; norm_num)]
    norm_num
  have e2 : double_mul 100 (2 ^ 53) = 100 * 2 ^ 53 := by
    unfold double_mul
    rw [roundBinary64_of_bracket (100 * 2 ^ 53) 59 (100 * 2 ^ 46) (by norm_num) (by norm_num)
      (by norm_num) (by left; norm_num)]
    norm_num
  have e3 : double_of_intmax (2 ^ 53 + 1) = 2 ^ 53 := by
    unfold double_of_intmax
    rw [show (((2 : ℤ) ^ 53 + 1 : ℤ) : ℚ) = (2 : ℚ) ^ 53 + 1 by norm_num]
    rw [roundBinary64_of_bracket (2 ^ 53 + 1) 53 (2 ^ 52) (by norm_num) (by norm_num)
      (by norm_num) (by right; norm_num [abs_of_nonneg])]
    norm_num
  have e4 : double_div (100 * 2 ^ 53) (2 ^ 53) = 100 := by
    unfold double_div
    have h : ((100 : ℚ) * 2 ^ 53) / 2 ^ 53 = ((100 : ℕ) : ℚ) := by norm_num
    rw [h, roundBinary64_natCast 100 (by norm_num)]
    norm_num
  have ht : intmax_of_uint64 ((2 ^ 53 + 1) % 2 ^ 64) = 2 ^ 53 + 1 := by decide
  unfold percentage
  simp only [ht]
  rw [if_pos (by norm_num), e1, e2, e3, e4]

/-- The percentage for 3151336721087743 hits and no miss is the `double` just
below 100: the product `100 * cache_hit` is not a `double` and is rounded
down. -/
theorem percentage_uneven :
    percentage 3151336721087743 0 = 7036874417766399 / 2 ^ 46 := by
  have e1 : double_of_uint64 3151336721087743 = 3151336721087743 := by
    unfold double_of_uint64
    exact roundBinary64_natCast 3151336721087743 (by norm_num)
  have e2 : double_mul 100 3151336721087743 = 315133672108774272 := by
    unfold double_mul
    rw [roundBinary64_of_bracket (100 * 3151336721087743) 58 4923963626699598 (by norm_num)
      (by norm_num) (by norm_num) (by left; norm_num [abs_lt])]
    norm_num
  have e3 : double_of_intmax 3151336721087743 = 3151336721087743 := by
    unfold double_of_intmax
    exact_mod_cast roundBinary64_natCast 3151336721087743 (by norm_num)
  have e4 : double_div 315133672108774272 3151336721087743 = 7036874417766399 / 2 ^ 46 := by
    unfold double_div
    rw [roundBinary64_of_bracket (315133672108774272 / 3151336721087743) 6 7036874417766399
      (by norm_num) (by norm_num) (by norm_num) (by left; norm_num [abs_lt])]
    norm_num
  have ht : intmax_of_uint64 ((3151336721087743 + 0) % 2 ^ 64) = 3151336721087743 := by decide
  unfold percentage
  simp only [ht]
  rw [if_pos (by norm_num)]
  rw [e1, e2, e3, e4]

/-! ## The parameter resolver: counters and levels -/

/-- A name found in the counter table takes the branch of its first entry: the
counter is stored in an `intmax_t`, classified and reported under the
description of the entry. -/
theorem MAC_STAT_chain_lookup (VSL_stats : varnish_stats) (param d : String) (w c less : Int)
    (stat_field : List (String × String)) (h : stat_field.lookup param = some d) :
    MAC_STAT_chain VSL_stats param w c less stat_field =
      message_and_exit (check_threshold (intmax_of_uint64 (VSL_stats param)) w c less)
        (intmax_of_uint64 (VSL_stats param)) d := by
  induction stat_field with
  | nil => simp at h
  | cons e rest ih =>
    obtain ⟨n, d0⟩ := e
    unfold MAC_STAT_chain
    by_cases hn : param = n
    · subst hn
      simp at h
      subst h
      simp
    · rw [if_neg hn]
      apply ih
      have hb : (param == n) = false := by simpa using hn
      simpa [List.lookup, hb] using h

/-- The `MAC_STAT` chain ends either in the report of a counter, at a level
given by `check_threshold`, or in the unknown-parameter message. -/
theorem MAC_STAT_chain_cases (VSL_stats : varnish_stats) (param : String) (w c less : Int)
    (stat_field : List (String × String)) :
    (∃ v info, MAC_STAT_chain VSL_stats param w c less stat_field =
      message_and_exit (check_threshold v w c less) v info) ∨
    MAC_STAT_chain VSL_stats param w c less stat_field =
      { stdout := "Unknown parameter '" ++ param ++ "'\n", stderr := "", code := 3 } := by
  induction stat_field with
  | nil =>
    right
    rfl
  | cons e rest ih =>
    obtain ⟨n, d0⟩ := e
    unfold MAC_STAT_chain
    by_cases hn : param = n
    · left
      rw [if_pos hn]
      exact ⟨_, _, rfl⟩
    · rw [if_neg hn]
      exact ih

/-- Every result of `check_stats` is either a report whose level comes from
`check_threshold` on the thresholds passed in, or the unknown-parameter
message for the parameter passed in. -/
theorem check_stats_cases (stat_field : List (String × String)) (VSL_stats : varnish_stats)
    (param : String) (w c less : Int) (o : Outcome)
    (h : check_stats stat_field VSL_stats param w c less = some o) :
    (∃ v info, o = message_and_exit (check_threshold v w c less) v info) ∨
    o = { stdout := "Unknown parameter '" ++ param ++ "'\n", stderr := "", code := 3 } := by
  unfold check_stats at h
  split_ifs at h with h1 h2
  · left
    rcases hc : intmax_of_double
        (percentage (VSL_stats "cache_hit") (VSL_stats "cache_miss")) with _ | v
    · simp [hc] at h
    · simp [hc] at h
      exact ⟨v, _, h.symm⟩
  · left
    rcases hc : intmax_of_double
        (percentage (VSL_stats "sm_balloc") (VSL_stats "sm_bfree")) with _ | v
    · simp [hc] at h
    · simp [hc] at h
      exact ⟨v, _, h.symm⟩
  · have ho : MAC_STAT_chain VSL_stats param w c less stat_field = o := by
      simpa using h
    rw [← ho]
    exact MAC_STAT_chain_cases VSL_stats param w c less stat_field

/-- C13, refuted as stated: the counter `client_conn` with the value `2 ^ 63`,
checked against warning 1 and critical 2 in the "more is worse" direction, is
reported as "OK: 9223372036854775808 Client connections accepted" with exit
code 0, whereas `check_threshold (2 ^ 63) 1 2 0` is 2. -/
theorem check_stats_counter_wrapped :
    sample_stat_field.lookup "client_conn" = some "Client connections accepted" ∧
    wrapped_stats "client_conn" = 2 ^ 63 ∧
    check_stats sample_stat_field wrapped_stats "client_conn" 1 2 0 =
      some { stdout := "OK: 9223372036854775808 Client connections accepted\n",
             stderr := "", code := 0 } ∧
    check_threshold (2 ^ 63) 1 2 0 = 2 := by
  decide

/-- C13, amended. For every counter name `n` of the table, other than "ratio"
and "usage", with description `d` and a current value `v = VSL_stats n` below
`2 ^ 63`, `check_stats` prints `<StatusWord>: v d` and exits with the level
`check_threshold v w c less`; the result is the same for every snapshot with
the same value of the counter `n`. -/
theorem check_stats_counter (stat_field : List (String × String)) (VSL_stats : varnish_stats)
    (n d : String) (w c less : Int)
    (hlook : stat_field.lookup n = some d) (hratio : n ≠ "ratio") (husage : n ≠ "usage")
    (hv : VSL_stats n < 2 ^ 63) :
    check_stats stat_field VSL_stats n w c less =
      some { stdout := (if check_threshold (VSL_stats n) w c less = 0 then "OK: "
                        else if check_threshold (VSL_stats n) w c less = 1 then "Warning: "
                        else "Critical: ") ++ (toString (VSL_stats n) ++ " " ++ d ++ "\n"),
             stderr := "",
             code := check_threshold (VSL_stats n) w c less } ∧
    ∀ other_stats : varnish_stats, other_stats n = VSL_stats n →
      check_stats stat_field other_stats n w c less =
        check_stats stat_field VSL_stats n w c less := by
  have hval : intmax_of_uint64 (VSL_stats n) = (VSL_stats n : ℤ) := by
    unfold intmax_of_uint64
    rw [if_pos hv]
  have hcs : ∀ st : varnish_stats, check_stats stat_field st n w c less =
      some (message_and_exit (check_threshold (intmax_of_uint64 (st n)) w c less)
        (intmax_of_uint64 (st n)) d) := by
    intro st
    unfold check_stats
    rw [if_neg hratio, if_neg husage, MAC_STAT_chain_lookup st n d w c less stat_field hlook]
  constructor
  · rw [hcs, hval, message_and_exit_of_check_threshold, fmt_ju_natCast _ (by omega)]
  · intro other_stats hsame
    rw [hcs, hcs, hsame]

/-- Witness of the amended C13: the counter `cache_hit = 99` of the sample
snapshot against warning 50 and critical 100. -/
theorem check_stats_counter_witness :
    check_stats sample_stat_field sample_stats "cache_hit" 50 100 0 =
      some { stdout := "Warning: 99 Cache hits\n", stderr := "", code := 1 } := by
  have h := (check_stats_counter sample_stat_field sample_stats "cache_hit" "Cache hits"
    50 100 0 (by decide) (by decide) (by decide) (by decide)).1
  rw [h]
  decide

/-- C14. The result of `check_threshold` is always 0, 1 or 2. Consequently
every result of `check_stats` is either a report at such a level (exit code
not 3, status word "OK", "Warning" or "Critical", never the word of level 3)
or the unknown-parameter message with exit code 3; and a run of the program
that exits with 3 ended in `usage` or in the unknown-parameter message. -/
theorem levels_and_exit_codes :
    (∀ value warn crit less : Int,
      check_threshold value warn crit less = 0 ∨ check_threshold value warn crit less = 1 ∨
        check_threshold value warn crit less = 2) ∧
    (∀ (stat_field : List (String × String)) (VSL_stats : varnish_stats) (param : String)
      (w c less : Int) (o : Outcome),
      check_stats stat_field VSL_stats param w c less = some o →
        (∃ v info,
          o = message_and_exit (check_threshold v w c less) v info ∧
          o.code = check_threshold v w c less ∧ o.code ≠ 3 ∧
          o.stdout = (if check_threshold v w c less = 0 then "OK: "
                      else if check_threshold v w c less = 1 then "Warning: "
                      else "Critical: ") ++ (fmt_ju v ++ " " ++ info ++ "\n")) ∨
        o = { stdout := "Unknown parameter '" ++ param ++ "'\n", stderr := "", code := 3 }) ∧
    (∀ (VSL_OpenStats : Option String → Option varnish_stats)
      (stat_field : List (String × String)) (opts : List Opt) (o : Outcome),
      main VSL_OpenStats stat_field opts = some o → o.code = 3 →
        o = usage ∨
        ∃ name, o = { stdout := "Unknown parameter '" ++ name ++ "'\n", stderr := "",
                      code := 3 }) := by
  have part2 : ∀ (stat_field : List (String × String)) (VSL_stats : varnish_stats)
      (param : String) (w c less : Int) (o : Outcome),
      check_stats stat_field VSL_stats param w c less = some o →
        (∃ v info,
          o = message_and_exit (check_threshold v w c less) v info ∧
          o.code = check_threshold v w c less ∧ o.code ≠ 3 ∧
          o.stdout = (if check_threshold v w c less = 0 then "OK: "
                      else if check_threshold v w c less = 1 then "Warning: "
                      else "Critical: ") ++ (fmt_ju v ++ " " ++ info ++ "\n")) ∨
        o = { stdout := "Unknown parameter '" ++ param ++ "'\n", stderr := "", code := 3 } := by
    intro stat_field VSL_stats param w c less o h
    rcases check_stats_cases stat_field VSL_stats param w c less o h with ⟨v, info, ho⟩ | ho
    · left
      refine ⟨v, info, ho, ?_, ?_, ?_⟩
      · rw [ho, message_and_exit_of_check_threshold]
      · rw [ho, message_and_exit_of_check_threshold]
        rcases check_threshold_range v w c less with h0 | h0 | h0 <;> simp [h0]
      · rw [ho, message_and_exit_of_check_threshold]
    · right
      exact ho
  refine ⟨check_threshold_range, part2, ?_⟩
  intro VSL_OpenStats stat_field opts o hm hcode
  unfold main at hm
  rcases hl : option_loop opts initial_args with e | a0
  · rw [hl] at hm
    simp only [Option.some.injEq] at hm
    subst hm
    rcases option_loop_error opts initial_args e hl with he | he
    · subst he
      exact absurd hcode (by decide)
    · left
      exact he
  · rw [hl] at hm
    simp only at hm
    rcases hopen : VSL_OpenStats a0.n_arg with _ | stats
    · rw [hopen] at hm
      simp only [Option.some.injEq] at hm
      subst hm
      exact absurd hcode (by decide)
    · rw [hopen] at hm
      simp only at hm
      rcases hp : (apply_defaults a0).param with _ | param
      · rw [hp] at hm
        simp only [Option.some.injEq] at hm
        left
        exact hm.symm
      · rw [hp] at hm
        simp only at hm
        split_ifs at hm with hz
        · simp only [Option.some.injEq] at hm
          left
          exact hm.symm
        · rcases part2 _ _ _ _ _ _ o hm with ⟨v, info, -, -, h3, -⟩ | ho
          · exact absurd hcode h3
          · right
            exact ⟨param, ho⟩

/-- Witness of C14: the run with the single option `-p client_conn` exits with
3, and it ended in `usage`. -/
theorem levels_and_exit_codes_witness :
    main sample_provider sample_stat_field [Opt.p "client_conn"] = some usage ∧
    usage.code = 3 ∧
    (usage = usage ∨
      ∃ name, usage = { stdout := "Unknown parameter '" ++ name ++ "'\n", stderr := "",
                        code := 3 }) :=
  ⟨rfl, rfl,
   levels_and_exit_codes.2.2 sample_provider sample_stat_field [Opt.p "client_conn"] usage
     rfl rfl⟩

/-- Every result of `check_stats` for the parameter "ratio" is a report under
the label "Cache hit ratio". -/
theorem check_stats_ratio_cases (stat_field : List (String × String))
    (VSL_stats : varnish_stats) (w c less : Int) (o : Outcome)
    (h : check_stats stat_field VSL_stats "ratio" w c less = some o) :
    ∃ v, o = message_and_exit (check_threshold v w c less) v "Cache hit ratio" := by
  unfold check_stats at h
  rw [if_pos rfl] at h
  rcases hc : intmax_of_double
      (percentage (VSL_stats "cache_hit") (VSL_stats "cache_miss")) with _ | v
  · simp [hc] at h
  · simp [hc] at h
    exact ⟨v, h.symm⟩

/-- C16. WARNING is reachable only for thresholds in the order of the
direction: some value is classified 1 in the "more is worse" direction exactly
when `warn < crit`, and in the "less is bad" direction exactly when
`warn > crit`. In particular a run without `-l` and without `-c` whose warning
threshold is positive (provider reachable) reports OK or Critical, never
Warning, unless it ends in the unknown-parameter message, which needs `-p`. -/
theorem warning_reachable :
    (∀ warn crit : Int, (∃ value, check_threshold value warn crit 0 = 1) ↔ warn < crit) ∧
    (∀ warn crit : Int, (∃ value, check_threshold value warn crit 1 = 1) ↔ warn > crit) ∧
    (∀ (VSL_OpenStats : Option String → Option varnish_stats)
      (stat_field : List (String × String)) (opts : List Opt) (a0 : Args)
      (VSL_stats : varnish_stats) (o : Outcome),
      option_loop opts initial_args = .ok a0 → Opt.l ∉ opts → (∀ s, Opt.c s ∉ opts) →
      0 < a0.warning → VSL_OpenStats a0.n_arg = some VSL_stats →
      main VSL_OpenStats stat_field opts = some o →
        o.code ≠ 1 ∧
        ((∃ v info, o = message_and_exit 0 v info) ∨
         (∃ v info, o = message_and_exit 2 v info) ∨
         ∃ name, o = { stdout := "Unknown parameter '" ++ name ++ "'\n", stderr := "",
                       code := 3 }) ∧
        ((∀ s, Opt.p s ∉ opts) →
          (∃ v, o = message_and_exit 0 v "Cache hit ratio") ∨
          (∃ v, o = message_and_exit 2 v "Cache hit ratio"))) := by
  refine ⟨fun warn crit => ?_, fun warn crit => ?_, ?_⟩
  · constructor
    · rintro ⟨value, hv⟩
      unfold check_threshold at hv
      split_ifs at hv <;> omega
    · intro h
      refine ⟨warn, ?_⟩
      unfold check_threshold
      split_ifs <;> omega
  · constructor
    · rintro ⟨value, hv⟩
      unfold check_threshold at hv
      split_ifs at hv <;> omega
    · intro h
      refine ⟨warn, ?_⟩
      unfold check_threshold
      split_ifs <;> omega
  · intro VSL_OpenStats stat_field opts a0 VSL_stats o hloop hl hc hw hopen hm
    obtain ⟨-, f2, f3, -, f5⟩ := option_loop_frame opts initial_args a0 hloop
    have hcrit : a0.critical = 0 := f2 hc
    have hless : a0.less = 0 := by
      rw [f5, if_neg hl]
      rfl
    have hwne : a0.warning ≠ 0 := by omega
    have hlevel : ∀ v : Int, check_threshold v a0.warning 0 0 = 0 ∨
        check_threshold v a0.warning 0 0 = 2 := by
      intro v
      unfold check_threshold
      split_ifs <;> omega
    have hcs : ∀ param, check_stats stat_field VSL_stats param a0.warning 0 0 = some o →
        o.code ≠ 1 ∧
        ((∃ v info, o = message_and_exit 0 v info) ∨
         (∃ v info, o = message_and_exit 2 v info) ∨
         ∃ name, o = { stdout := "Unknown parameter '" ++ name ++ "'\n", stderr := "",
                       code := 3 }) := by
      intro param h
      rcases check_stats_cases _ _ _ _ _ _ o h with ⟨v, info, ho⟩ | ho
      · rcases hlevel v with h0 | h2
        · rw [h0] at ho
          refine ⟨?_, Or.inl ⟨v, info, ho⟩⟩
          rw [ho]
          simp [message_and_exit]
        · rw [h2] at ho
          refine ⟨?_, Or.inr (Or.inl ⟨v, info, ho⟩)⟩
          rw [ho]
          simp [message_and_exit]
      · refine ⟨?_, Or.inr (Or.inr ⟨param, ho⟩)⟩
        rw [ho]
        simp
    unfold main at hm
    simp only [hloop, hopen] at hm
    rcases hp : a0.param with _ | name
    · have hdef : apply_defaults a0 = { a0 with param := some "ratio" } := by
        unfold apply_defaults
        simp [hp, hwne]
      rw [hdef] at hm
      simp only [hcrit, hless, hwne, and_false, if_false] at hm
      refine ⟨(hcs "ratio" hm).1, (hcs "ratio" hm).2, fun _ => ?_⟩
      obtain ⟨v, ho⟩ := check_stats_ratio_cases _ _ _ _ _ o hm
      rcases hlevel v with h0 | h2
      · rw [h0] at ho
        exact Or.inl ⟨v, ho⟩
      · rw [h2] at ho
        exact Or.inr ⟨v, ho⟩
    · have hdef : apply_defaults a0 = a0 := by
        unfold apply_defaults
        rw [hp]
      rw [hdef] at hm
      simp only [hp, hcrit, hless, hwne, and_false, if_false] at hm
      refine ⟨(hcs name hm).1, (hcs name hm).2, fun hnop => ?_⟩
      have hnone : a0.param = initial_args.param := f3 hnop
      rw [hp] at hnone
      exact absurd hnone (by simp [initial_args])

/-- Witness of C16: the run with the single option `-w 50` on the sample
snapshot (hit ratio 99) reports Critical, exit code 2 and not 1. -/
theorem warning_reachable_witness :
    main sample_provider sample_stat_field [Opt.w "50"] =
      some (message_and_exit 2 99 "Cache hit ratio") ∧
    (message_and_exit 2 99 "Cache hit ratio").code ≠ 1 := by
  have hl : option_loop [Opt.w "50"] initial_args =
      .ok { critical := 0, warning := 50, n_arg := none, param := none, less := 0 } := rfl
  have hm : main sample_provider sample_stat_field [Opt.w "50"] =
      some (message_and_exit 2 99 "Cache hit ratio") := by
    have h1 : main sample_provider sample_stat_field [Opt.w "50"] =
        check_stats sample_stat_field sample_stats "ratio" 50 0 0 := by
      unfold main
      simp only [hl]
      simp [sample_provider, apply_defaults]
    rw [h1, check_stats_sample_ratio]
    rfl
  exact ⟨hm, (warning_reachable.2.2 sample_provider sample_stat_field [Opt.w "50"]
    { critical := 0, warning := 50, n_arg := none, param := none, less := 0 }
    sample_stats _ hl (by decide) (by simp) (by decide) rfl hm).1⟩

/-! ## The derived percentage: range -/

/-- With no hits (or no allocated bytes) the percentage is 0. -/
theorem percentage_zero_part (rest : ℕ) : percentage 0 rest = 0 := by
  unfold percentage double_div double_mul double_of_uint64
  simp only []
  split_ifs <;> simp [roundBinary64_zero]

/-- The integer quotient `100 * part / (part + rest)` is 100 exactly when
`rest = 0` and `part > 0`. -/
theorem percent_eq_hundred (part rest : ℕ) (h : 0 < part + rest) :
    100 * part / (part + rest) = 100 ↔ rest = 0 ∧ 0 < part := by
  constructor
  · intro he
    have h1 : 100 * (part + rest) ≤ 100 * part := by
      have := (Nat.le_div_iff_mul_le h).mp (le_of_eq he.symm)
      omega
    omega
  · rintro ⟨hr, hp⟩
    subst hr
    simp only [Nat.add_zero]
    exact Nat.mul_div_cancel 100 hp

/-- C17, refuted as stated: with `2 ^ 53` hits and one miss the value reported
for "ratio" is 100 although `cache_miss` is not 0, and with 3151336721087743
hits and no miss the value reported is 99 although `cache_miss = 0` and
`cache_hit > 0`; neither sum overflows. -/
theorem ratio_hundred_not_exact :
    (large_stats "cache_hit" + large_stats "cache_miss" < 2 ^ 64 ∧
     large_stats "cache_miss" ≠ 0 ∧
     check_stats sample_stat_field large_stats "ratio" 95 90 1 =
       some { stdout := "OK: 100 Cache hit ratio\n", stderr := "", code := 0 }) ∧
    (uneven_stats "cache_hit" + uneven_stats "cache_miss" < 2 ^ 64 ∧
     uneven_stats "cache_miss" = 0 ∧ 0 < uneven_stats "cache_hit" ∧
     check_stats sample_stat_field uneven_stats "ratio" 95 90 1 =
       some { stdout := "OK: 99 Cache hit ratio\n", stderr := "", code := 0 }) := by
  have a1 : large_stats "cache_hit" = 2 ^ 53 := by decide
  have a2 : large_stats "cache_miss" = 1 := by decide
  have b1 : uneven_stats "cache_hit" = 3151336721087743 := by decide
  have b2 : uneven_stats "cache_miss" = 0 := by decide
  have c1 : intmax_of_double (percentage (2 ^ 53) 1) = some 100 := by
    have hfl : ⌊(100 : ℚ)⌋ = 100 := by
      rw [Int.floor_eq_iff]
      norm_num
    rw [percentage_large, intmax_of_double_nonneg 100 (by norm_num) (by norm_num), hfl]
  have c2 : intmax_of_double (percentage 3151336721087743 0) = some 99 := by
    have hfl : ⌊(7036874417766399 / 2 ^ 46 : ℚ)⌋ = 99 := by
      rw [Int.floor_eq_iff]
      norm_num
    rw [percentage_uneven, intmax_of_double_nonneg _ (by norm_num) (by norm_num), hfl]
  refine ⟨⟨by rw [a1, a2]; norm_num, by rw [a2]; decide, ?_⟩,
    ⟨by rw [b1, b2]; norm_num, b2, by rw [b1]; norm_num, ?_⟩⟩
  · unfold check_stats
    rw [if_pos rfl, a1, a2]
    simp only [c1, Option.map_some']
    decide
  · unfold check_stats
    rw [if_pos rfl, b1, b2]
    simp only [c2, Option.map_some']
    decide

/-- C17, amended. For counters whose sum does not overflow, the value `r`
reported for "ratio" and for "usage" is an integer with `0 ≤ r ≤ 100`; for
"ratio", `r = 0` whenever `cache_hit = 0`, and when `100 * cache_hit` and
`cache_hit + cache_miss` are below `2 ^ 53` (exactly representable), `r = 100`
exactly when `cache_miss = 0` and `cache_hit > 0`. -/
theorem percentage_within_range (stat_field : List (String × String))
    (VSL_stats : varnish_stats) (w c less : Int) :
    (VSL_stats "cache_hit" + VSL_stats "cache_miss" < 2 ^ 64 →
      ∃ r : ℤ, 0 ≤ r ∧ r ≤ 100 ∧
        check_stats stat_field VSL_stats "ratio" w c less =
          some (message_and_exit (check_threshold r w c less) r "Cache hit ratio") ∧
        (VSL_stats "cache_hit" = 0 → r = 0) ∧
        (100 * VSL_stats "cache_hit" < 2 ^ 53 →
          VSL_stats "cache_hit" + VSL_stats "cache_miss" < 2 ^ 53 →
          (r = 100 ↔ VSL_stats "cache_miss" = 0 ∧ 0 < VSL_stats "cache_hit"))) ∧
    (VSL_stats "sm_balloc" + VSL_stats "sm_bfree" < 2 ^ 64 →
      ∃ r : ℤ, 0 ≤ r ∧ r ≤ 100 ∧
        check_stats stat_field VSL_stats "usage" w c less =
          some (message_and_exit (check_threshold r w c less) r "Cache file usage")) := by
  constructor
  · intro hsum
    obtain ⟨r, h0, h100, hr⟩ := percentage_defined _ _ hsum
    refine ⟨r, h0, h100, ?_, ?_, ?_⟩
    · unfold check_stats
      rw [if_pos rfl]
      simp only [hr, Option.map_some']
    · intro hz
      rw [hz, percentage_zero_part,
        intmax_of_double_nonneg 0 le_rfl (by norm_num)] at hr
      simp at hr
      exact hr.symm
    · intro h1 h2
      rw [percentage_exact _ _ h1 h2] at hr
      simp only [Option.some.injEq] at hr
      by_cases hpos : 0 < VSL_stats "cache_hit" + VSL_stats "cache_miss"
      · rw [if_pos hpos] at hr
        rw [← hr, ← percent_eq_hundred _ _ hpos]
        constructor
        · intro h
          exact_mod_cast h
        · intro h
          exact_mod_cast h
      · rw [if_neg hpos] at hr
        rw [← hr]
        constructor
        · intro h
          exact absurd h (by decide)
        · rintro ⟨-, hp⟩
          omega
  · intro hsum
    obtain ⟨r, h0, h100, hr⟩ := percentage_defined _ _ hsum
    refine ⟨r, h0, h100, ?_⟩
    unfold check_stats
    rw [if_neg (by decide), if_pos rfl]
    simp only [hr, Option.map_some']

/-- Witness of the amended C17: on the sample snapshot (99 hits, one miss,
nothing allocated) the values reported are 99 for "ratio" and 0 for "usage". -/
theorem percentage_within_range_witness :
    sample_stats "cache_hit" + sample_stats "cache_miss" < 2 ^ 64 ∧
    sample_stats "sm_balloc" + sample_stats "sm_bfree" < 2 ^ 64 ∧
    (∃ r : ℤ, 0 ≤ r ∧ r ≤ 100 ∧
      check_stats sample_stat_field sample_stats "ratio" 95 90 1 =
        some (message_and_exit (check_threshold r 95 90 1) r "Cache hit ratio")) ∧
    (∃ r : ℤ, 0 ≤ r ∧ r ≤ 100 ∧
      check_stats sample_stat_field sample_stats "usage" 95 90 1 =
        some (message_and_exit (check_threshold r 95 90 1) r "Cache file usage")) := by
  have ha : sample_stats "cache_hit" + sample_stats "cache_miss" < 2 ^ 64 := by decide
  have hb : sample_stats "sm_balloc" + sample_stats "sm_bfree" < 2 ^ 64 := by decide
  obtain ⟨h1, h2⟩ := percentage_within_range sample_stat_field sample_stats 95 90 1
  obtain ⟨r1, p0, p100, pcs, -, -⟩ := h1 ha
  exact ⟨ha, hb, ⟨r1, p0, p100, pcs⟩, h2 hb⟩

end CheckVarnish
